import Mathlib

/-!
The esvelo-website front end: intensity controller, fragment program and text
scramble.

A shallow embedding of the stateful controllers of the site's front end.

* `ASCIIBackground` (src/ascii-background.js): the input-driven intensity
  scalar (`intensity`, `targetIntensity`), its event handlers, the per-frame
  interpolation of `animate()`, and the fragment program's `main()` up to its
  visibility test.
* `TextScramble` (src/text-scramble.js): the per-character transition queue,
  the frame loop of `update()`, `reveal()`, `scramble()`, `updateText()` and the
  host's frame-callback scheduler.

JavaScript and GLSL numbers are embedded as rationals: arithmetic is exact, so
the development speaks about the formulas of the source, not about IEEE
rounding. `Math.sqrt` is a host function and is taken as a parameter
`sqrt : ℚ → ℚ`; `Math.random` is taken as a stream of draws in `[0, 1)`; the
noise function and the transcendental built-ins of the fragment program are
fields of `Shader`.
-/

set_option autoImplicit false

namespace ASCIIBackground

/-- The fields of an `ASCIIBackground` instance that the intensity logic reads
or writes. The WebGL handles, `mouse`, `smoothMouse`, `cellSize` and the unused
`isHovering`, `hoverIntensity`, `isScrolling`, `scrollTimeout` only feed the
renderer and are left out. `decayTimeout` is the pending idle timer: `none`
when no timer is pending, `some r` when the callback of
`setTimeout(..., 200)` fires after `r` more milliseconds. -/
structure State where
  time : ℚ
  intensity : ℚ
  targetIntensity : ℚ
  lastScrollY : ℚ
  hasInteracted : Bool
  lastMouseX : ℚ
  lastMouseY : ℚ
  decayTimeout : Option ℕ
  deriving DecidableEq, Repr

/-- The constant `this.maxIntensity = 1.0`, written once in the constructor. -/
def maxIntensity : ℚ := 1.0

/-- The state the constructor leaves; `scrollY` is `window.scrollY`. -/
def init (scrollY : ℚ) : State where
  time := 0
  intensity := 0
  targetIntensity := 0
  lastScrollY := scrollY
  hasInteracted := false
  lastMouseX := -1
  lastMouseY := -1
  decayTimeout := none

/-- The distance `Math.sqrt(dx * dx + dy * dy)` from the last sample to
`(newX, newY)`. -/
def moved (sqrt : ℚ → ℚ) (s : State) (newX newY : ℚ) : ℚ :=
  let dx := newX - s.lastMouseX
  let dy := newY - s.lastMouseY
  sqrt (dx * dx + dy * dy)

/-- The `mousemove` listener. -/
def onMouseMove (sqrt : ℚ → ℚ) (s : State) (newX newY : ℚ) : State :=
  if s.lastMouseX = -1 then
    { s with lastMouseX := newX, lastMouseY := newY }
  else
    let moved := moved sqrt s newX newY
    let s := { s with lastMouseX := newX, lastMouseY := newY }
    if moved > 2 then
      let intensityGain := min (moved * 0.002) 0.03
      { s with
        hasInteracted := true
        targetIntensity := min (s.targetIntensity + intensityGain) maxIntensity
        decayTimeout := some 200 }
    else s

/-- The `mouseleave` listener. -/
def onMouseLeave (s : State) : State :=
  { s with targetIntensity := 0 }

/-- The `scroll` listener; `currentScrollY` is `window.scrollY`. -/
def onScroll (s : State) (currentScrollY : ℚ) : State :=
  let scrollDelta := |currentScrollY - s.lastScrollY|
  if scrollDelta > 1 then
    let intensityGain := min (scrollDelta * 0.0015) 0.025
    { s with
      hasInteracted := true
      lastScrollY := currentScrollY
      targetIntensity := min (s.targetIntensity + intensityGain) maxIntensity
      decayTimeout := some 200 }
  else s

/-- The `touchmove` listener; `touches` are the `(clientX, clientY)` of
`e.touches`. -/
def onTouchMove (sqrt : ℚ → ℚ) (s : State) (touches : List (ℚ × ℚ)) : State :=
  match touches with
  | [] => s
  | (newX, newY) :: _ =>
    let s1 :=
      if s.lastMouseX ≠ -1 then
        let moved := moved sqrt s newX newY
        if moved > 2 then
          let intensityGain := min (moved * 0.002) 0.03
          { s with targetIntensity := min (s.targetIntensity + intensityGain) maxIntensity }
        else s
      else s
    { s1 with
      lastMouseX := newX
      lastMouseY := newY
      hasInteracted := true
      decayTimeout := some 200 }

/-- The `touchend` listener. -/
def onTouchEnd (s : State) : State :=
  { s with targetIntensity := 0 }

/-- The callback of the idle timer: `() => { this.targetIntensity = 0; }`. -/
def onDecayTimeout (s : State) : State :=
  { s with targetIntensity := 0, decayTimeout := none }

/-- The host lets `ms` milliseconds pass: a pending idle timer either comes
`ms` closer or, when its delay is used up, runs its callback. -/
def elapse (s : State) (ms : ℕ) : State :=
  match s.decayTimeout with
  | none => s
  | some r => if r ≤ ms then onDecayTimeout s else { s with decayTimeout := some (r - ms) }

/-- One frame of `animate()`: the intensity part (rendering reads the state and
does not change it). -/
def animate (s : State) : State :=
  let intensitySpeed : ℚ := if s.targetIntensity > s.intensity then 0.15 else 0.04
  let intensity := s.intensity + (s.targetIntensity - s.intensity) * intensitySpeed
  { s with
    time := s.time + 0.016
    intensity := if intensity < 0.001 then 0 else intensity }

/-- What can happen to the controller after construction. -/
inductive Event where
  | mousemove (clientX clientY : ℚ)
  | mouseleave
  | scroll (scrollY : ℚ)
  | touchmove (touches : List (ℚ × ℚ))
  | touchend
  | elapse (ms : ℕ)
  | frame
  deriving DecidableEq, Repr

/-- The effect of one event. -/
def step (sqrt : ℚ → ℚ) (s : State) : Event → State
  | .mousemove x y => onMouseMove sqrt s x y
  | .mouseleave => onMouseLeave s
  | .scroll y => onScroll s y
  | .touchmove ts => onTouchMove sqrt s ts
  | .touchend => onTouchEnd s
  | .elapse ms => elapse s ms
  | .frame => animate s

/-- The effect of a sequence of events, oldest first. -/
def run (sqrt : ℚ → ℚ) (s : State) (es : List Event) : State :=
  es.foldl (step sqrt) s

/-- The state after `n` consecutive frames of `animate()` with no event in between. -/
def frames (n : ℕ) (s : State) : State :=
  animate^[n] s

/-- A pointer-move event with its position: a `mousemove`, or a `touchmove`
whose first touch point is `(clientX, clientY)`. -/
inductive PointerMove where
  | mouse (clientX clientY : ℚ)
  | touch (clientX clientY : ℚ) (others : List (ℚ × ℚ))
  deriving DecidableEq, Repr

/-- The event a pointer move stands for. -/
def PointerMove.toEvent : PointerMove → Event
  | .mouse x y => .mousemove x y
  | .touch x y others => .touchmove ((x, y) :: others)

/-- The position of a pointer move. -/
def PointerMove.pos : PointerMove → ℚ × ℚ
  | .mouse x y => (x, y)
  | .touch x y _ => (x, y)

/-- The Euclidean distance between two positions, as the handlers compute it. -/
def dist (sqrt : ℚ → ℚ) (p q : ℚ × ℚ) : ℚ :=
  sqrt ((q.1 - p.1) * (q.1 - p.1) + (q.2 - p.2) * (q.2 - p.2))

/-- The previous sample the handlers hold: none while `lastMouseX` is the
sentinel `-1`. -/
def lastSample (s : State) : Option (ℚ × ℚ) :=
  if s.lastMouseX = -1 then none else some (s.lastMouseX, s.lastMouseY)

/-- Every position of the list lies at distance at most 2 from the one before
it; the first one is compared with `prev`, when there is one. -/
def Jitter (sqrt : ℚ → ℚ) : Option (ℚ × ℚ) → List (ℚ × ℚ) → Prop
  | _, [] => True
  | none, p :: ps => Jitter sqrt (some p) ps
  | some q, p :: ps => dist sqrt q p ≤ 2 ∧ Jitter sqrt (some p) ps

/-- The integer square root, by search. -/
def natSqrt (n : ℕ) : ℕ :=
  ((List.range (n + 1)).filter fun k => 0 < k ∧ k * k ≤ n).length

/-- A concrete stand-in for `Math.sqrt`, exact on squares of rationals: the
root of `n / d` is taken as `natSqrt (n * d) / d`. -/
def sqrtFloor (q : ℚ) : ℚ :=
  (natSqrt (q.num.toNat * q.den) : ℚ) / q.den

/-- An input that qualifies in state `s`: a pointer move of more than 2 pixels
from a held sample, or a scroll of more than 1 pixel. -/
def Qualifies (sqrt : ℚ → ℚ) (s : State) : Event → Prop
  | .mousemove x y => s.lastMouseX ≠ -1 ∧ moved sqrt s x y > 2
  | .touchmove ((x, y) :: _) => s.lastMouseX ≠ -1 ∧ moved sqrt s x y > 2
  | .scroll y => |y - s.lastScrollY| > 1
  | _ => False

/-- No event of the sequence qualifies in the state it arrives in. -/
def NoQualifying (sqrt : ℚ → ℚ) : State → List Event → Prop
  | _, [] => True
  | s, e :: es => ¬ Qualifies sqrt s e ∧ NoQualifying sqrt (step sqrt s e) es

/-- The milliseconds that pass during a sequence of events. -/
def elapsed : List Event → ℕ
  | [] => 0
  | .elapse ms :: es => ms + elapsed es
  | _ :: es => elapsed es

/-- A `touchmove` that carries a touch point. -/
def IsTouch : Event → Prop
  | .touchmove (_ :: _) => True
  | _ => False

/-! ### The fragment program -/

/-- A GLSL `vec2`. -/
abbrev Vec2 := ℚ × ℚ

/-- The uniforms `render()` passes to the fragment program. -/
structure Uniforms where
  uResolution : Vec2
  uTime : ℚ
  uMouse : Vec2
  uHoverIntensity : ℚ
  uCellSize : ℚ
  uIntensity : ℚ

/-- The functions of the fragment program whose values are left open: the
built-ins `exp`, `sin` and `sqrt` (inside `length`), the program's noise
function `snoise`, and `glyph`, the rest of `main` after the visibility test
(character selection, colour, glow, bloom and rays), which gets everything it
reads: the uniforms, `fragCoord`, `cellPos`, `cellUv`, `distortedPos`,
`blobMask` and `visibility`. -/
structure Shader where
  snoise : ℚ → ℚ → ℚ → ℚ
  exp : ℚ → ℚ
  sin : ℚ → ℚ
  sqrt : ℚ → ℚ
  glyph : Uniforms → Vec2 → Vec2 → Vec2 → Vec2 → ℚ → ℚ → ℚ × ℚ × ℚ

/-- The built-in `mix(a, b, t)`. -/
def mix (a b t : ℚ) : ℚ :=
  a * (1 - t) + b * t

/-- The built-in `clamp(x, lo, hi)`. -/
def clamp (x lo hi : ℚ) : ℚ :=
  min (max x lo) hi

/-- The built-in `smoothstep(e0, e1, x)`. -/
def smoothstep (e0 e1 x : ℚ) : ℚ :=
  let t := clamp ((x - e0) / (e1 - e0)) 0 1
  t * t * (3 - 2 * t)

/-- The built-in `fract(x)`. -/
def fract (x : ℚ) : ℚ :=
  x - ⌊x⌋

/-- The value `fragCoord = vUv * uResolution`. -/
def fragCoord (u : Uniforms) (vUv : Vec2) : Vec2 :=
  (vUv.1 * u.uResolution.1, vUv.2 * u.uResolution.2)

/-- The value `cellPos = floor(fragCoord / uCellSize)`. -/
def cellPos (u : Uniforms) (vUv : Vec2) : Vec2 :=
  (⌊(fragCoord u vUv).1 / u.uCellSize⌋, ⌊(fragCoord u vUv).2 / u.uCellSize⌋)

/-- The value `cellUv = fract(fragCoord / uCellSize)`. -/
def cellUv (u : Uniforms) (vUv : Vec2) : Vec2 :=
  (fract ((fragCoord u vUv).1 / u.uCellSize), fract ((fragCoord u vUv).2 / u.uCellSize))

/-- The value `cellCenter = (cellPos + 0.5) * uCellSize / uResolution`. -/
def cellCenter (u : Uniforms) (vUv : Vec2) : Vec2 :=
  (((cellPos u vUv).1 + 0.5) * u.uCellSize / u.uResolution.1,
    ((cellPos u vUv).2 + 0.5) * u.uCellSize / u.uResolution.2)

/-- The value `distortedPos`: the cell centre in pixels, displaced by the
turbulence and by the swirl and the radial wave around the pointer. The unused
`swirlAngle` is left out. -/
def distortedPos (sh : Shader) (u : Uniforms) (vUv : Vec2) : Vec2 :=
  let cc := cellCenter u vUv
  let turbScale : ℚ := 0.003
  let turbTime := u.uTime * 0.4
  let turb : Vec2 :=
    (sh.snoise (cc.1 * u.uResolution.1 * turbScale) (cc.2 * u.uResolution.2 * turbScale)
        turbTime * 60.0,
      sh.snoise (cc.1 * u.uResolution.1 * turbScale + 100.0)
        (cc.2 * u.uResolution.2 * turbScale + 100.0) (turbTime + 50.0) * 60.0)
  let mousePos : Vec2 := (u.uMouse.1 * u.uResolution.1, u.uMouse.2 * u.uResolution.2)
  let toMouse : Vec2 := ((fragCoord u vUv).1 - mousePos.1, (fragCoord u vUv).2 - mousePos.2)
  let mouseDist := sh.sqrt (toMouse.1 * toMouse.1 + toMouse.2 * toMouse.2)
  let stirRadius : ℚ := 450.0
  let stirStrength :=
    sh.exp (-mouseDist * mouseDist / (stirRadius * stirRadius * 0.5)) * u.uIntensity
  let swirlSpeed := 0.3 + (1.0 - stirStrength) * 0.5
  let swirlOffset := sh.sin (mouseDist * 0.02 - u.uTime * swirlSpeed) * stirStrength * 80.0
  let tangent : Vec2 := (-toMouse.2 / max mouseDist 1.0, toMouse.1 / max mouseDist 1.0)
  let radialWave := sh.sin (mouseDist * 0.015 - u.uTime * 0.8) * stirStrength * 40.0
  let radialDir : Vec2 := (toMouse.1 / max mouseDist 1.0, toMouse.2 / max mouseDist 1.0)
  let mouseTurb : Vec2 :=
    (tangent.1 * swirlOffset + radialDir.1 * radialWave,
      tangent.2 * swirlOffset + radialDir.2 * radialWave)
  (cc.1 * u.uResolution.1 + turb.1 + mouseTurb.1, cc.2 * u.uResolution.2 + turb.2 + mouseTurb.2)

/-- The value `blobMask`: the occupancy of the cell. -/
def blobMask (sh : Shader) (u : Uniforms) (vUv : Vec2) : ℚ :=
  let dp := distortedPos sh u vUv
  let blobScale : ℚ := 0.0006
  let timeScale : ℚ := 0.25
  let blob1 := sh.snoise (dp.1 * blobScale) (dp.2 * blobScale) (u.uTime * timeScale)
  let blob2 := sh.snoise (dp.1 * blobScale * 1.8 + 200.0) (dp.2 * blobScale * 1.8 + 200.0)
    (u.uTime * timeScale * 1.2 + 100.0)
  let blob3 := sh.snoise (dp.1 * blobScale * 3.0 + 400.0) (dp.2 * blobScale * 3.0 + 400.0)
    (u.uTime * timeScale * 0.9 + 200.0)
  let holes := sh.snoise (dp.1 * blobScale * 2.5 + 600.0) (dp.2 * blobScale * 2.5 + 600.0)
    (u.uTime * timeScale * 1.5 + 300.0)
  let noise := blob1 * 0.5 + blob2 * 0.25 + blob3 * 0.15
  let noise := noise - max 0.0 (holes * 0.3)
  let noise := noise * 0.5 + 0.5
  let threshold : ℚ := 0.52
  if noise > threshold then
    let normalized := (noise - threshold) / (1.0 - threshold)
    if normalized > 0.2 then 0.8 + normalized * 0.2
    else
      let t := normalized / 0.2
      t * t * (3.0 - 2.0 * t) * 0.8
  else 0.0

/-- The value `revealMask`: the four reveal layers, each gated by the
intensity. -/
def revealMask (sh : Shader) (u : Uniforms) (vUv : Vec2) : ℚ :=
  let dp := distortedPos sh u vUv
  let revealScale : ℚ := 0.0006
  let layer1 := sh.snoise (dp.1 * revealScale) (dp.2 * revealScale) 0.0 * 0.5 + 0.5
  let layer2 := sh.snoise (dp.1 * revealScale * 0.7 + 300.0) (dp.2 * revealScale * 0.7 + 300.0)
    50.0 * 0.5 + 0.5
  let layer3 := sh.snoise (dp.1 * revealScale * 1.3 + 600.0) (dp.2 * revealScale * 1.3 + 600.0)
    100.0 * 0.5 + 0.5
  let layer4 := sh.snoise (dp.1 * revealScale * 0.5 + 900.0) (dp.2 * revealScale * 0.5 + 900.0)
    150.0 * 0.5 + 0.5
  let revealMask : ℚ := 0.0
  let thresh1 := mix 0.75 0.3 (smoothstep 0.0 0.4 u.uIntensity)
  let revealMask :=
    if layer1 > thresh1 then max revealMask (smoothstep thresh1 (thresh1 + 0.15) layer1)
    else revealMask
  let thresh2 := mix 0.85 0.35 (smoothstep 0.2 0.6 u.uIntensity)
  let revealMask :=
    if u.uIntensity > 0.2 ∧ layer2 > thresh2 then
      max revealMask (smoothstep thresh2 (thresh2 + 0.15) layer2 * smoothstep 0.2 0.35 u.uIntensity)
    else revealMask
  let thresh3 := mix 0.9 0.4 (smoothstep 0.4 0.8 u.uIntensity)
  let revealMask :=
    if u.uIntensity > 0.4 ∧ layer3 > thresh3 then
      max revealMask (smoothstep thresh3 (thresh3 + 0.15) layer3 * smoothstep 0.4 0.6 u.uIntensity)
    else revealMask
  let thresh4 := mix 0.95 0.45 (smoothstep 0.7 1.0 u.uIntensity)
  let revealMask :=
    if u.uIntensity > 0.7 ∧ layer4 > thresh4 then
      max revealMask (smoothstep thresh4 (thresh4 + 0.15) layer4 * smoothstep 0.7 0.9 u.uIntensity)
    else revealMask
  revealMask

/-- The background colour `vec4(0.0, 0.0, 0.0, 1.0)`. -/
def background : ℚ × ℚ × ℚ × ℚ := (0.0, 0.0, 0.0, 1.0)

/-- The fragment program's `main()`: the colour written for the pixel with
interpolated coordinate `vUv`. -/
def main (sh : Shader) (u : Uniforms) (vUv : Vec2) : ℚ × ℚ × ℚ × ℚ :=
  if u.uIntensity < 0.001 then background
  else if blobMask sh u vUv < 0.01 then background
  else
    let visibility := revealMask sh u vUv * u.uIntensity
    if visibility < 0.01 then background
    else
      let color := sh.glyph u (fragCoord u vUv) (cellPos u vUv) (cellUv u vUv)
        (distortedPos sh u vUv) (blobMask sh u vUv) visibility
      (color.1, color.2.1, color.2.2, 1.0)

/-- The colour `render()` produces for the pixel `vUv` in state `s`: the
intensity uniform is `this.intensity` and the time uniform `this.time`; the
canvas size, the smoothed pointer, `hoverIntensity` and the cell size are
arguments. -/
def render (sh : Shader) (s : State) (resolution mouse : Vec2) (hover cell : ℚ) (vUv : Vec2) :
    ℚ × ℚ × ℚ × ℚ :=
  main sh
    { uResolution := resolution
      uTime := s.time
      uMouse := mouse
      uHoverIntensity := hover
      uCellSize := cell
      uIntensity := s.intensity } vUv

end ASCIIBackground

namespace TextScramble

/-- A JavaScript string: its sequence of code units. -/
abbrev JSString := List Char

/-- The scramble alphabet `CHARS`. -/
def CHARS : JSString :=
  "ABCDEFGHIJKLMNOPQRSTUVWXYZ0123456789!@#$%&*<>[]\x7b\x7d".toList

/-- One result of `Math.random()`: a number in `[0, 1)`. -/
structure Draw where
  val : ℚ
  nonneg : 0 ≤ val
  lt_one : val < 1

/-- The value of `Math.floor(Math.random() * n)` for the draw `d`. -/
def Draw.floorMul (d : Draw) (n : ℕ) : ℕ :=
  Int.toNat ⌊d.val * n⌋

/-- The expression `text[i] || ''`: the one-unit string at index `i`, the empty string past
the end. -/
def charAt (text : JSString) (i : ℕ) : JSString :=
  (text.get? i).toList

/-- The method `randomChar()` when `k` draws have been consumed: the glyph
`CHARS[Math.floor(Math.random() * CHARS.length)]` as a one-unit string. -/
def randomChar (rnd : ℕ → Draw) (k : ℕ) : JSString :=
  charAt CHARS ((rnd k).floorMul CHARS.length)

/-- A record of the transition queue. -/
structure QItem where
  from_ : JSString
  to_ : JSString
  start : ℕ
  end_ : ℕ
  char : JSString
  deriving DecidableEq, Repr

/-- The DOM element a controller owns, as far as the controller observes it. -/
structure Element where
  innerHTML : JSString
  textContent : JSString
  ariaLabel : Option JSString
  deriving DecidableEq, Repr

/-- The host's HTML engine: `textOf h` is the `textContent` of an element whose
`innerHTML` was set to `h`, `markupOf t` the `innerHTML` of an element whose
`textContent` was set to `t`. -/
structure Dom where
  textOf : JSString → JSString
  markupOf : JSString → JSString

/-- The assignment `element.textContent = text`. -/
def Element.setTextContent (dom : Dom) (e : Element) (text : JSString) : Element :=
  { e with textContent := text, innerHTML := dom.markupOf text }

/-- The assignment `element.innerHTML = html`. -/
def Element.setInnerHTML (dom : Dom) (e : Element) (html : JSString) : Element :=
  { e with innerHTML := html, textContent := dom.textOf html }

/-- A `TextScramble` instance together with the part of the host it talks to:
`pending` holds the handles of this controller's frame callbacks that were
requested and have neither run nor been cancelled, `nextHandle` is the last
handle the host handed out, `draws` counts the calls of `Math.random()`. -/
structure State where
  element : Element
  originalHTML : JSString
  originalText : JSString
  frameRequest : Option ℕ
  queue : List QItem
  frame : ℕ
  isRevealed : Bool
  pending : List ℕ
  nextHandle : ℕ
  draws : ℕ
  deriving DecidableEq, Repr

/-- The constructor, in a host that has handed out `nextHandle` handles and
`draws` random numbers. -/
def construct (element : Element) (nextHandle draws : ℕ) : State where
  element := { element with ariaLabel := some element.textContent }
  originalHTML := element.innerHTML
  originalText := element.textContent
  frameRequest := none
  queue := []
  frame := 0
  isRevealed := false
  pending := []
  nextHandle := nextHandle
  draws := draws

/-- The method `cancelAnimation()`: a handle is a positive number, so `if
(this.frameRequest)` holds for every handle but `null`. -/
def cancelAnimation (s : State) : State :=
  match s.frameRequest with
  | none => s
  | some h =>
    if h ≠ 0 then { s with pending := s.pending.erase h, frameRequest := none } else s

/-- The value of `text.indexOf(c)`, `-1` when `c` does not occur. -/
def indexOf (text : JSString) (c : Char) : ℤ :=
  if c ∈ text then (text.indexOf c : ℕ) else -1

/-- The pieces of `html.split('<br>')`, with `acc` the piece being read. -/
def splitBr : JSString → JSString → List JSString
  | [], acc => [acc]
  | '<' :: 'b' :: 'r' :: '>' :: rest, acc => acc :: splitBr rest []
  | c :: cs, acc => splitBr cs (acc ++ [c])

/-- The method `updateText(text)`. -/
def updateText (dom : Dom) (s : State) (text : JSString) : State :=
  if "<br>".toList <:+: s.originalHTML then
    let brIndex := indexOf s.originalText '\n'
    if brIndex ≠ -1 then
      let before := text.take brIndex.toNat
      let after := text.drop (brIndex.toNat + 1)
      { s with element := s.element.setInnerHTML dom (before ++ "<br>".toList ++ after) }
    else
      let parts := splitBr s.originalHTML []
      if parts.length = 2 then
        let firstLen := (parts.headD []).length
        let before := text.take firstLen
        let after := text.drop firstLen
        { s with element := s.element.setInnerHTML dom (before ++ "<br>".toList ++ after) }
      else
        { s with element := s.element.setTextContent dom text }
  else
    { s with element := s.element.setTextContent dom text }

/-- The map of `setScrambled()` over the code units of the original text, when
`k` draws have been consumed: the scrambled text and the draws consumed
after it. -/
def scrambleText (rnd : ℕ → Draw) : JSString → ℕ → JSString × ℕ
  | [], k => ([], k)
  | c :: cs, k =>
    if c = ' ' ∨ c = '\n' then
      let r := scrambleText rnd cs k
      (c :: r.1, r.2)
    else
      let r := scrambleText rnd cs (k + 1)
      (randomChar rnd k ++ r.1, r.2)

/-- The method `setScrambled()`. -/
def setScrambled (dom : Dom) (rnd : ℕ → Draw) (s : State) : State :=
  let r := scrambleText rnd s.originalText s.draws
  updateText dom { s with draws := r.2 } r.1

/-- The loop of `animateTo`: record `i` is pushed in iteration `i`, which
consumes draw `k + i`. -/
def buildQueue (rnd : ℕ → Draw) (currentText targetText : JSString) (k : ℕ) : List QItem :=
  (List.range (max currentText.length targetText.length)).map fun i =>
    { from_ := charAt currentText i
      to_ := charAt targetText i
      start := i * 2
      end_ := i * 2 + 10 + (rnd (k + i)).floorMul 10
      char := [] }

/-- What one iteration of the loop of `update()` yields: the text appended to
`output`, the record as the iteration leaves it, its contribution to
`complete`, and the draws consumed after it. -/
structure ItemResult where
  piece : JSString
  item : QItem
  complete : ℕ
  draws : ℕ

/-- One iteration of the loop of `update()` on record `q` at frame `frame`,
when `k` draws have been consumed. -/
def updateItem (rnd : ℕ → Draw) (frame : ℕ) (q : QItem) (k : ℕ) : ItemResult :=
  if frame ≥ q.end_ then
    { piece := q.to_, item := q, complete := 1, draws := k }
  else if frame ≥ q.start then
    if q.to_ ≠ [' '] ∧ q.to_ ≠ ['\n'] then
      if q.char = [] then
        let char := randomChar rnd k
        { piece := char, item := { q with char := char }, complete := 0, draws := k + 1 }
      else if (rnd k).val < 0.28 then
        let char := randomChar rnd (k + 1)
        { piece := char, item := { q with char := char }, complete := 0, draws := k + 2 }
      else
        { piece := q.char, item := q, complete := 0, draws := k + 1 }
    else
      { piece := q.to_, item := q, complete := 0, draws := k }
  else
    { piece := q.from_, item := q, complete := 0, draws := k }

/-- What the loop of `update()` yields. -/
structure LoopResult where
  queue : List QItem
  output : JSString
  complete : ℕ
  draws : ℕ

/-- The loop of `update()` over the queue, first record first. -/
def updateLoop (rnd : ℕ → Draw) (frame : ℕ) : List QItem → ℕ → LoopResult
  | [], k => { queue := [], output := [], complete := 0, draws := k }
  | q :: qs, k =>
    let r := updateItem rnd frame q k
    let rest := updateLoop rnd frame qs r.draws
    { queue := r.item :: rest.queue
      output := r.piece ++ rest.output
      complete := r.complete + rest.complete
      draws := rest.draws }

/-- The call `requestAnimationFrame(callback)` with the result stored in
`this.frameRequest`: the host hands out the next handle. -/
def requestFrame (s : State) : State :=
  let h := s.nextHandle + 1
  { s with pending := s.pending ++ [h], nextHandle := h, frameRequest := some h }

/-- The method `update()`. -/
def update (dom : Dom) (rnd : ℕ → Draw) (s : State) : State :=
  let r := updateLoop rnd s.frame s.queue s.draws
  let s := updateText dom { s with queue := r.queue, draws := r.draws } r.output
  if r.complete < s.queue.length then requestFrame s else s

/-- The method `animateTo(targetText)`. -/
def animateTo (dom : Dom) (rnd : ℕ → Draw) (s : State) (targetText : JSString) : State :=
  let currentText := s.element.textContent
  let length := max currentText.length targetText.length
  update dom rnd
    { s with
      queue := buildQueue rnd currentText targetText s.draws
      draws := s.draws + length
      frame := 0 }

/-- The method `reveal()`. -/
def reveal (dom : Dom) (rnd : ℕ → Draw) (s : State) : State :=
  if s.isRevealed then s
  else animateTo dom rnd (cancelAnimation { s with isRevealed := true }) s.originalText

/-- The method `scramble()`. -/
def scramble (dom : Dom) (rnd : ℕ → Draw) (s : State) : State :=
  if !s.isRevealed then s
  else setScrambled dom rnd (cancelAnimation { s with isRevealed := false })

/-- The host runs the frame callback with handle `h`, if it is pending:
`() => { this.frame++; this.update(); }`. -/
def fire (dom : Dom) (rnd : ℕ → Draw) (h : ℕ) (s : State) : State :=
  if h ∈ s.pending then
    update dom rnd { s with pending := s.pending.erase h, frame := s.frame + 1 }
  else s

/-- One animation frame of the host: the oldest pending callback runs; with
nothing pending the frame leaves the controller alone. -/
def tick (dom : Dom) (rnd : ℕ → Draw) (s : State) : State :=
  match s.pending with
  | [] => s
  | h :: _ => fire dom rnd h s

/-- The method `initHeader` without the observer: construct the controller and start
scrambled. -/
def initHeader (dom : Dom) (rnd : ℕ → Draw) (element : Element) (nextHandle draws : ℕ) : State :=
  setScrambled dom rnd (construct element nextHandle draws)

/-- The code unit shown at index `i` of the element's text, if any. -/
def shown (s : State) (i : ℕ) : JSString :=
  charAt s.element.textContent i

/-- The fields of a record that `update()` never writes: the record with its
`char` emptied. -/
def QItem.static (q : QItem) : QItem :=
  { q with char := [] }

/-- The texts the iterations of the loop of `update()` append to `output`, in
order: entry `i` is what queue position `i` displays in this frame. -/
def updatePieces (rnd : ℕ → Draw) (frame : ℕ) : List QItem → ℕ → List JSString
  | [], _ => []
  | q :: qs, k =>
    (updateItem rnd frame q k).piece :: updatePieces rnd frame qs (updateItem rnd frame q k).draws

/-- The number of draws consumed when the loop of `update()` reaches queue
position `i`. -/
def drawsBefore (rnd : ℕ → Draw) (frame : ℕ) : List QItem → ℕ → ℕ → ℕ
  | [], k, _ => k
  | _ :: _, k, 0 => k
  | q :: qs, k, i + 1 => drawsBefore rnd frame qs (updateItem rnd frame q k).draws i

/-- The draw that is always 0. -/
def drawZero : Draw := ⟨0, le_refl 0, zero_lt_one⟩

/-- The stream of draws that are all 0: every glyph is `A`, every record ends
10 frames after its start, no re-roll is skipped. -/
def rndZero : ℕ → Draw := fun _ => drawZero

/-- An HTML engine for plain text: markup and text coincide. -/
def domPlain : Dom := ⟨id, id⟩

/-- An element that shows `text` and has no markup of its own. -/
def plainElement (text : JSString) : Element :=
  { innerHTML := text, textContent := text, ariaLabel := none }

/-- The state `n` animation frames after `animateTo(targetText)`. -/
def framesAfter (dom : Dom) (rnd : ℕ → Draw) (s : State) (targetText : JSString) (n : ℕ) :
    State :=
  (tick dom rnd)^[n] (animateTo dom rnd s targetText)

/-- A one-unit string whose unit is a glyph of the scramble alphabet. -/
def Glyph (c : JSString) : Prop :=
  ∃ g, g ∈ CHARS ∧ c = [g]

/-- Every record of the queue has no glyph chosen yet or holds a glyph of the
scramble alphabet. -/
def Chosen (queue : List QItem) : Prop :=
  ∀ q ∈ queue, q.char = [] ∨ Glyph q.char

/-- What can happen to a controller after construction: the calls the manager
makes and the host running a frame callback. -/
inductive Action where
  | reveal
  | scramble
  | setScrambled
  | fire (h : ℕ)
  | tick
  deriving DecidableEq, Repr

/-- The effect of one action. -/
def act (dom : Dom) (rnd : ℕ → Draw) (s : State) : Action → State
  | .reveal => reveal dom rnd s
  | .scramble => scramble dom rnd s
  | .setScrambled => setScrambled dom rnd s
  | .fire h => fire dom rnd h s
  | .tick => tick dom rnd s

/-- The effect of a sequence of actions, oldest first. -/
def runActions (dom : Dom) (rnd : ℕ → Draw) (s : State) (as : List Action) : State :=
  as.foldl (act dom rnd) s

/-- At most the frame callback recorded in `frameRequest` is pending, and the
host has handed out every pending handle. -/
def OneFrame (s : State) : Prop :=
  (s.pending = [] ∨ ∃ h, h ≠ 0 ∧ s.pending = [h] ∧ s.frameRequest = some h) ∧
    ∀ h ∈ s.pending, h ≤ s.nextHandle

/-- A heading whose markup has one `<br>` between two runs of plain text and
starts on a new line: `textContent` has the newline and nothing for the
`<br>`. -/
def brokenHeading : Element :=
  { innerHTML := "\nHi<br>there".toList, textContent := "\nHithere".toList, ariaLabel := none }

end TextScramble

namespace ASCIIBackground

/-! ## The intensity controller -/

theorem maxIntensity_eq : maxIntensity = 1 := by
  norm_num [maxIntensity]

/-- The gain of a qualifying input is positive. -/
theorem gain_pos {m a b : ℚ} (hm : 0 < m) (ha : 0 < a) (hb : 0 < b) : 0 < min (m * a) b :=
  lt_min (mul_pos hm ha) hb

theorem add_gain_bounds {t g : ℚ} (ht : 0 ≤ t) (hg : 0 ≤ g) :
    0 ≤ min (t + g) maxIntensity ∧ min (t + g) maxIntensity ≤ 1 := by
  rw [maxIntensity_eq]
  exact ⟨le_min (add_nonneg ht hg) zero_le_one, min_le_right _ _⟩

theorem onMouseMove_bounds (sqrt : ℚ → ℚ) (s : State) (x y : ℚ)
    (h : 0 ≤ s.targetIntensity ∧ s.targetIntensity ≤ 1) :
    0 ≤ (onMouseMove sqrt s x y).targetIntensity ∧
      (onMouseMove sqrt s x y).targetIntensity ≤ 1 := by
  simp only [onMouseMove]
  split_ifs with h1 h2
  · exact h
  · exact add_gain_bounds h.1 (gain_pos (by linarith) (by norm_num) (by norm_num)).le
  · exact h

theorem onTouchMove_bounds (sqrt : ℚ → ℚ) (s : State) (ts : List (ℚ × ℚ))
    (h : 0 ≤ s.targetIntensity ∧ s.targetIntensity ≤ 1) :
    0 ≤ (onTouchMove sqrt s ts).targetIntensity ∧
      (onTouchMove sqrt s ts).targetIntensity ≤ 1 := by
  cases ts with
  | nil => exact h
  | cons p ps =>
    obtain ⟨x, y⟩ := p
    simp only [onTouchMove]
    split_ifs with h1 h2
    · exact add_gain_bounds h.1 (gain_pos (by linarith) (by norm_num) (by norm_num)).le
    · exact h
    · exact h

theorem onScroll_bounds (s : State) (y : ℚ)
    (h : 0 ≤ s.targetIntensity ∧ s.targetIntensity ≤ 1) :
    0 ≤ (onScroll s y).targetIntensity ∧ (onScroll s y).targetIntensity ≤ 1 := by
  simp only [onScroll]
  split_ifs with h1
  · exact add_gain_bounds h.1 (gain_pos (by linarith) (by norm_num) (by norm_num)).le
  · exact h

theorem elapse_targetIntensity (s : State) (ms : ℕ) :
    (elapse s ms).targetIntensity = s.targetIntensity ∨ (elapse s ms).targetIntensity = 0 := by
  unfold elapse
  split
  · exact Or.inl rfl
  · split_ifs
    · exact Or.inr rfl
    · exact Or.inl rfl

theorem elapse_intensity (s : State) (ms : ℕ) : (elapse s ms).intensity = s.intensity := by
  unfold elapse
  split
  · rfl
  · split_ifs <;> rfl

theorem onMouseMove_intensity (sqrt : ℚ → ℚ) (s : State) (x y : ℚ) :
    (onMouseMove sqrt s x y).intensity = s.intensity := by
  simp only [onMouseMove]
  split_ifs <;> rfl

theorem onTouchMove_intensity (sqrt : ℚ → ℚ) (s : State) (ts : List (ℚ × ℚ)) :
    (onTouchMove sqrt s ts).intensity = s.intensity := by
  cases ts with
  | nil => rfl
  | cons p ps =>
    obtain ⟨x, y⟩ := p
    simp only [onTouchMove]
    split_ifs <;> rfl

theorem onScroll_intensity (s : State) (y : ℚ) : (onScroll s y).intensity = s.intensity := by
  simp only [onScroll]
  split_ifs <;> rfl

/-- The value `animate()` writes to `intensity`. -/
theorem animate_intensity (s : State) :
    (animate s).intensity =
      if s.intensity + (s.targetIntensity - s.intensity) *
          (if s.targetIntensity > s.intensity then 0.15 else 0.04) < 0.001 then 0
      else s.intensity + (s.targetIntensity - s.intensity) *
          (if s.targetIntensity > s.intensity then 0.15 else 0.04) := rfl

theorem animate_targetIntensity (s : State) :
    (animate s).targetIntensity = s.targetIntensity := rfl

theorem animate_bounds (s : State)
    (h : 0 ≤ s.targetIntensity ∧ s.targetIntensity ≤ 1 ∧ 0 ≤ s.intensity ∧ s.intensity ≤ 1) :
    0 ≤ (animate s).intensity ∧ (animate s).intensity ≤ 1 := by
  obtain ⟨h1, h2, h3, h4⟩ := h
  rw [animate_intensity]
  by_cases hc : s.targetIntensity > s.intensity
  · simp only [hc, if_true]
    split_ifs
    · exact ⟨le_refl _, zero_le_one⟩
    · constructor <;> linarith
  · simp only [hc, if_false]
    split_ifs
    · exact ⟨le_refl _, zero_le_one⟩
    · constructor <;> linarith

/-- One event keeps both intensities in `[0, 1]`. -/
theorem step_bounds (sqrt : ℚ → ℚ) (s : State) (e : Event)
    (h : 0 ≤ s.targetIntensity ∧ s.targetIntensity ≤ 1 ∧ 0 ≤ s.intensity ∧ s.intensity ≤ 1) :
    0 ≤ (step sqrt s e).targetIntensity ∧ (step sqrt s e).targetIntensity ≤ 1 ∧
      0 ≤ (step sqrt s e).intensity ∧ (step sqrt s e).intensity ≤ 1 := by
  obtain ⟨h1, h2, h3, h4⟩ := h
  cases e with
  | mousemove x y =>
    have := onMouseMove_bounds sqrt s x y ⟨h1, h2⟩
    simp only [step, onMouseMove_intensity]
    exact ⟨this.1, this.2, h3, h4⟩
  | mouseleave => exact ⟨le_refl _, zero_le_one, h3, h4⟩
  | scroll y =>
    have := onScroll_bounds s y ⟨h1, h2⟩
    simp only [step, onScroll_intensity]
    exact ⟨this.1, this.2, h3, h4⟩
  | touchmove ts =>
    have := onTouchMove_bounds sqrt s ts ⟨h1, h2⟩
    simp only [step, onTouchMove_intensity]
    exact ⟨this.1, this.2, h3, h4⟩
  | touchend => exact ⟨le_refl _, zero_le_one, h3, h4⟩
  | elapse ms =>
    simp only [step, elapse_intensity]
    rcases elapse_targetIntensity s ms with h | h <;> rw [h]
    · exact ⟨h1, h2, h3, h4⟩
    · exact ⟨le_refl _, zero_le_one, h3, h4⟩
  | frame =>
    have := animate_bounds s ⟨h1, h2, h3, h4⟩
    exact ⟨h1, h2, this.1, this.2⟩

theorem run_bounds (sqrt : ℚ → ℚ) (es : List Event) (s : State)
    (h : 0 ≤ s.targetIntensity ∧ s.targetIntensity ≤ 1 ∧ 0 ≤ s.intensity ∧ s.intensity ≤ 1) :
    0 ≤ (run sqrt s es).targetIntensity ∧ (run sqrt s es).targetIntensity ≤ 1 ∧
      0 ≤ (run sqrt s es).intensity ∧ (run sqrt s es).intensity ≤ 1 := by
  induction es generalizing s with
  | nil => exact h
  | cons e es ih => exact ih (step sqrt s e) (step_bounds sqrt s e h)

/-- C1. Intensity invariant: from the constructor state, after every sequence
of mousemove, mouseleave, scroll, touchmove, touchend, timer and frame events,
whatever `Math.sqrt` returns, `targetIntensity` and `intensity` both lie in
`[0, 1]`. -/
theorem intensity_invariant (sqrt : ℚ → ℚ) (scrollY : ℚ) (es : List Event) :
    0 ≤ (run sqrt (init scrollY) es).targetIntensity ∧
      (run sqrt (init scrollY) es).targetIntensity ≤ 1 ∧
      0 ≤ (run sqrt (init scrollY) es).intensity ∧
      (run sqrt (init scrollY) es).intensity ≤ 1 :=
  run_bounds sqrt es (init scrollY)
    ⟨le_refl (0 : ℚ), zero_le_one, le_refl (0 : ℚ), zero_le_one⟩

theorem natSqrt_zero : natSqrt 0 = 0 := by decide

theorem natSqrt_one : natSqrt 1 = 1 := by decide

theorem natSqrt_two : natSqrt 2 = 1 := by decide

theorem natSqrt_twentyfive : natSqrt 25 = 5 := by decide

theorem sqrtFloor_zero : sqrtFloor 0 = 0 := by
  simp [sqrtFloor, natSqrt_zero]

theorem sqrtFloor_one : sqrtFloor 1 = 1 := by
  simp [sqrtFloor, natSqrt_one]

theorem sqrtFloor_two : sqrtFloor 2 = 1 := by
  simp [sqrtFloor, natSqrt_two]

theorem sqrtFloor_twentyfive : sqrtFloor 25 = 5 := by
  simp [sqrtFloor, natSqrt_twentyfive]

theorem jitter_of_some (sqrt : ℚ → ℚ) (q : ℚ × ℚ) (ps : List (ℚ × ℚ))
    (h : Jitter sqrt (some q) ps) : Jitter sqrt none ps := by
  cases ps with
  | nil => trivial
  | cons p ps => exact h.2

/-- A pointer move within 2 pixels of the held sample, or with no held sample,
leaves `targetIntensity` alone and becomes the held sample. -/
theorem jitter_step (sqrt : ℚ → ℚ) (s : State) (m : PointerMove)
    (h : ∀ q, lastSample s = some q → dist sqrt q m.pos ≤ 2) :
    (step sqrt s m.toEvent).targetIntensity = s.targetIntensity ∧
      (step sqrt s m.toEvent).lastMouseX = m.pos.1 ∧
      (step sqrt s m.toEvent).lastMouseY = m.pos.2 := by
  cases m with
  | mouse x y =>
    by_cases h1 : s.lastMouseX = -1
    · simp [PointerMove.toEvent, step, onMouseMove, h1, PointerMove.pos]
    · have hd : ¬ moved sqrt s x y > 2 :=
        not_lt.mpr (h (s.lastMouseX, s.lastMouseY) (by simp [lastSample, h1]))
      simp [PointerMove.toEvent, step, onMouseMove, h1, hd, PointerMove.pos]
  | touch x y others =>
    by_cases h1 : s.lastMouseX = -1
    · simp [PointerMove.toEvent, step, onTouchMove, h1, PointerMove.pos]
    · have hd : ¬ moved sqrt s x y > 2 :=
        not_lt.mpr (h (s.lastMouseX, s.lastMouseY) (by simp [lastSample, h1]))
      simp [PointerMove.toEvent, step, onTouchMove, h1, hd, PointerMove.pos]

/-- C2. Jitter rejection: a sequence of pointer moves (mousemove or touchmove),
each at computed distance at most 2 from the previous sample, the first one
compared with the sample the state holds (if it holds one), leaves
`targetIntensity` as it was, however long the sequence. -/
theorem jitter_rejection (sqrt : ℚ → ℚ) (s : State) (ms : List PointerMove)
    (h : Jitter sqrt (lastSample s) (ms.map PointerMove.pos)) :
    (run sqrt s (ms.map PointerMove.toEvent)).targetIntensity = s.targetIntensity := by
  induction ms generalizing s with
  | nil => rfl
  | cons m ms ih =>
    have hstep : (∀ q, lastSample s = some q → dist sqrt q m.pos ≤ 2) ∧
        Jitter sqrt (some m.pos) (ms.map PointerMove.pos) := by
      cases hs : lastSample s with
      | none =>
        rw [hs] at h
        exact ⟨fun q hq => (by cases hq), h⟩
      | some q0 =>
        rw [hs] at h
        exact ⟨fun q hq => (by cases hq; exact h.1), h.2⟩
    obtain ⟨h1, h2, h3⟩ := jitter_step sqrt s m hstep.1
    have hnext : Jitter sqrt (lastSample (step sqrt s m.toEvent)) (ms.map PointerMove.pos) := by
      unfold lastSample
      split_ifs
      · exact jitter_of_some sqrt _ _ hstep.2
      · rw [h2, h3]
        exact hstep.2
    have := ih (step sqrt s m.toEvent) hnext
    simp only [List.map_cons, run, List.foldl_cons] at this ⊢
    rw [this, h1]

/-- The witness of C2: four moves of one pixel or less from the first
sample. -/
theorem jitter_rejection_witness :
    Jitter sqrtFloor (lastSample (init 0))
        ([PointerMove.mouse 10 10, .mouse 11 10, .touch 11 11 [], .mouse 12 12].map
          PointerMove.pos) ∧
      (run sqrtFloor (init 0)
        ([PointerMove.mouse 10 10, .mouse 11 10, .touch 11 11 [], .mouse 12 12].map
          PointerMove.toEvent)).targetIntensity = (init 0).targetIntensity := by
  have h : Jitter sqrtFloor (lastSample (init 0))
      ([PointerMove.mouse 10 10, .mouse 11 10, .touch 11 11 [], .mouse 12 12].map
        PointerMove.pos) := by
    norm_num [Jitter, lastSample, init, dist, PointerMove.pos, sqrtFloor_one, sqrtFloor_two]
  exact ⟨h, jitter_rejection sqrtFloor (init 0) _ h⟩

/-- C3. Intensity gain: a qualifying pointer move of computed distance `d > 2`
(mouse or touch) sets `targetIntensity` to `min(old + min(d * 0.002, 0.03), 1.0)`,
a qualifying scroll of `|Δ| > 1` sets it to
`min(old + min(|Δ| * 0.0015, 0.025), 1.0)`, and no pointer event raises it by
more than 0.03, no scroll event by more than 0.025. -/
theorem intensity_gain (sqrt : ℚ → ℚ) (s : State) :
    (∀ x y, s.lastMouseX ≠ -1 → moved sqrt s x y > 2 →
      (onMouseMove sqrt s x y).targetIntensity =
        min (s.targetIntensity + min (moved sqrt s x y * 0.002) 0.03) 1.0) ∧
    (∀ x y others, s.lastMouseX ≠ -1 → moved sqrt s x y > 2 →
      (onTouchMove sqrt s ((x, y) :: others)).targetIntensity =
        min (s.targetIntensity + min (moved sqrt s x y * 0.002) 0.03) 1.0) ∧
    (∀ y, |y - s.lastScrollY| > 1 →
      (onScroll s y).targetIntensity =
        min (s.targetIntensity + min (|y - s.lastScrollY| * 0.0015) 0.025) 1.0) ∧
    (∀ x y, (onMouseMove sqrt s x y).targetIntensity ≤ s.targetIntensity + 0.03) ∧
    (∀ ts, (onTouchMove sqrt s ts).targetIntensity ≤ s.targetIntensity + 0.03) ∧
    (∀ y, (onScroll s y).targetIntensity ≤ s.targetIntensity + 0.025) := by
  have hcap : ∀ t g c : ℚ, g ≤ c → min (t + g) maxIntensity ≤ t + c := fun t g c hg =>
    le_trans (min_le_left _ _) (by linarith)
  refine ⟨?_, ?_, ?_, ?_, ?_, ?_⟩
  · intro x y h1 h2
    simp only [onMouseMove, if_neg h1, if_pos h2, maxIntensity]
  · intro x y others h1 h2
    have h1' : ¬ s.lastMouseX = -1 := h1
    simp only [onTouchMove, ne_eq, h1', not_false_eq_true, if_true, if_pos h2, maxIntensity]
  · intro y h
    simp only [onScroll, if_pos h, maxIntensity]
  · intro x y
    simp only [onMouseMove]
    split_ifs
    · show s.targetIntensity ≤ _
      linarith
    · exact hcap _ _ _ (min_le_right _ _)
    · show s.targetIntensity ≤ _
      linarith
  · intro ts
    cases ts with
    | nil =>
      show s.targetIntensity ≤ _
      linarith
    | cons p ps =>
      obtain ⟨x, y⟩ := p
      simp only [onTouchMove]
      split_ifs
      · exact hcap _ _ _ (min_le_right _ _)
      · show s.targetIntensity ≤ _
        linarith
      · show s.targetIntensity ≤ _
        linarith
  · intro y
    simp only [onScroll]
    split_ifs
    · exact hcap _ _ _ (min_le_right _ _)
    · show s.targetIntensity ≤ _
      linarith

/-- The witness of C3: from the sample `(0, 0)`, a move to `(3, 4)` has
distance 5 and gain `0.01`, and a scroll by 10 pixels has gain `0.015`. -/
theorem intensity_gain_witness :
    (onMouseMove sqrtFloor (onMouseMove sqrtFloor (init 0) 0 0) 3 4).targetIntensity = 0.01 ∧
      (onTouchMove sqrtFloor (onMouseMove sqrtFloor (init 0) 0 0) [(3, 4)]).targetIntensity
        = 0.01 ∧
      (onScroll (onMouseMove sqrtFloor (init 0) 0 0) 10).targetIntensity = 0.015 := by
  have h := intensity_gain sqrtFloor (onMouseMove sqrtFloor (init 0) 0 0)
  have hx : (onMouseMove sqrtFloor (init 0) 0 0).lastMouseX ≠ -1 := by
    norm_num [onMouseMove, init]
  have hm : moved sqrtFloor (onMouseMove sqrtFloor (init 0) 0 0) 3 4 = 5 := by
    norm_num [moved, onMouseMove, init, sqrtFloor_twentyfive]
  have hs : |(10 : ℚ) - (onMouseMove sqrtFloor (init 0) 0 0).lastScrollY| = 10 := by
    norm_num [onMouseMove, init]
  have ht : (onMouseMove sqrtFloor (init 0) 0 0).targetIntensity = 0 := by
    norm_num [onMouseMove, init]
  refine ⟨?_, ?_, ?_⟩
  · rw [h.1 3 4 hx (by rw [hm]; norm_num), hm, ht]
    norm_num
  · rw [h.2.1 3 4 [] hx (by rw [hm]; norm_num), hm, ht]
    norm_num
  · rw [h.2.2.1 10 (by rw [hs]; norm_num), hs, ht]
    norm_num

/-- After a frame the intensity is 0 or at least 0.001. -/
theorem animate_zero_or_ge (s : State) :
    (animate s).intensity = 0 ∨ 0.001 ≤ (animate s).intensity := by
  rw [animate_intensity]
  by_cases h : s.intensity + (s.targetIntensity - s.intensity) *
      (if s.targetIntensity > s.intensity then 0.15 else 0.04) < 0.001
  · rw [if_pos h]
    exact Or.inl rfl
  · rw [if_neg h]
    exact Or.inr (not_lt.mp h)

/-- C4. Frame step: one `animate()` sets `intensity` to `c + (t - c) * rate`
with `rate = 0.15` when `t > c` and `0.04` otherwise, replaced by exactly 0
when below 0.001; so after a frame the intensity is 0 or at least 0.001. -/
theorem frame_step (s : State) :
    (animate s).intensity =
        (if s.intensity + (s.targetIntensity - s.intensity) *
            (if s.targetIntensity > s.intensity then 0.15 else 0.04) < 0.001 then 0
          else s.intensity + (s.targetIntensity - s.intensity) *
            (if s.targetIntensity > s.intensity then 0.15 else 0.04)) ∧
      ((animate s).intensity = 0 ∨ 0.001 ≤ (animate s).intensity) :=
  ⟨animate_intensity s, animate_zero_or_ge s⟩

theorem frames_succ (n : ℕ) (s : State) : frames (n + 1) s = animate (frames n s) :=
  Function.iterate_succ_apply' animate n s

theorem frames_targetIntensity (n : ℕ) (s : State) :
    (frames n s).targetIntensity = s.targetIntensity := by
  induction n with
  | zero => rfl
  | succ n ih => rw [frames_succ, animate_targetIntensity, ih]

/-- A qualifying input arms the idle timer with 200 ms. -/
theorem qualifies_arms (sqrt : ℚ → ℚ) (s : State) (e : Event) (h : Qualifies sqrt s e) :
    (step sqrt s e).decayTimeout = some 200 := by
  cases e with
  | mousemove x y =>
    obtain ⟨h1, h2⟩ := h
    simp only [step, onMouseMove, if_neg h1, if_pos h2]
  | touchmove ts =>
    cases ts with
    | nil => exact absurd h id
    | cons p ps => rfl
  | scroll y =>
    have h1 : |y - s.lastScrollY| > 1 := h
    simp only [step, onScroll, if_pos h1]
  | mouseleave => exact absurd h id
  | touchend => exact absurd h id
  | elapse ms => exact absurd h id
  | frame => exact absurd h id

/-- A touch move that carries a touch point arms the idle timer with 200 ms. -/
theorem touch_arms (sqrt : ℚ → ℚ) (s : State) (e : Event) (h : IsTouch e) :
    (step sqrt s e).decayTimeout = some 200 := by
  cases e with
  | touchmove ts =>
    cases ts with
    | nil => exact absurd h id
    | cons p ps => rfl
  | mousemove x y => exact absurd h id
  | scroll y => exact absurd h id
  | mouseleave => exact absurd h id
  | touchend => exact absurd h id
  | elapse ms => exact absurd h id
  | frame => exact absurd h id

/-- An event that neither qualifies nor is a touch move nor lets time pass
keeps the idle timer and keeps `targetIntensity` or zeroes it. -/
theorem quiet_step (sqrt : ℚ → ℚ) (s : State) (e : Event) (hq : ¬ Qualifies sqrt s e)
    (ht : ¬ IsTouch e) (he : ∀ ms, e ≠ .elapse ms) :
    ((step sqrt s e).targetIntensity = s.targetIntensity ∨
        (step sqrt s e).targetIntensity = 0) ∧
      (step sqrt s e).decayTimeout = s.decayTimeout := by
  cases e with
  | mousemove x y =>
    by_cases h1 : s.lastMouseX = -1
    · simp [step, onMouseMove, h1]
    · have h2 : ¬ moved sqrt s x y > 2 := fun h2 => hq ⟨h1, h2⟩
      simp [step, onMouseMove, h1, h2]
  | touchmove ts =>
    cases ts with
    | nil => exact ⟨Or.inl rfl, rfl⟩
    | cons p ps => exact absurd trivial ht
  | scroll y =>
    have h1 : ¬ |y - s.lastScrollY| > 1 := hq
    simp [step, onScroll, h1]
  | mouseleave => exact ⟨Or.inr rfl, rfl⟩
  | touchend => exact ⟨Or.inr rfl, rfl⟩
  | elapse ms => exact absurd rfl (he ms)
  | frame => exact ⟨Or.inl rfl, rfl⟩

/-- With no qualifying input and no touch move, `targetIntensity` is 0 once the
pending idle timer has run out, and stays 0. -/
theorem idle_target_zero (sqrt : ℚ → ℚ) (es : List Event) (s : State)
    (h : s.targetIntensity = 0 ∨ ∃ r, 0 < r ∧ s.decayTimeout = some r ∧ r ≤ elapsed es)
    (hq : NoQualifying sqrt s es) (ht : ∀ e ∈ es, ¬ IsTouch e) :
    (run sqrt s es).targetIntensity = 0 := by
  induction es generalizing s with
  | nil =>
    rcases h with h | ⟨r, h0, -, hr⟩
    · exact h
    · exact absurd hr (by simpa [elapsed] using h0.ne')
  | cons e es ih =>
    refine ih (step sqrt s e) ?_ hq.2 (fun e' he' => ht e' (List.mem_cons_of_mem _ he'))
    by_cases he : ∃ ms, e = .elapse ms
    · obtain ⟨ms, rfl⟩ := he
      cases hd : s.decayTimeout with
      | none =>
        rcases h with h | ⟨r, -, hr, -⟩
        · left
          simp only [step, elapse, hd]
          exact h
        · rw [hd] at hr
          cases hr
      | some r' =>
        by_cases hfire : r' ≤ ms
        · left
          simp only [step, elapse, hd, if_pos hfire, onDecayTimeout]
        · rcases h with h | ⟨r, -, hr, hle⟩
          · left
            simp only [step, elapse, hd, if_neg hfire]
            exact h
          · right
            rw [hd] at hr
            cases hr
            refine ⟨r' - ms, by omega, ?_, ?_⟩
            · simp only [step, elapse, hd, if_neg hfire]
            · simp only [elapsed] at hle
              omega
    · have hne : ∀ ms, e ≠ .elapse ms := fun ms h' => he ⟨ms, h'⟩
      obtain ⟨h1, h2⟩ := quiet_step sqrt s e hq.1 (ht e (List.mem_cons_self _ _)) hne
      have hel : elapsed (e :: es) = elapsed es := by
        cases e with
        | elapse ms => exact absurd rfl (hne ms)
        | _ => rfl
      rcases h with h | ⟨r, h0, hr, hle⟩
      · left
        rcases h1 with h1 | h1
        · rw [h1, h]
        · exact h1
      · right
        exact ⟨r, h0, by rw [h2, hr], by rw [← hel]; exact hle⟩

/-- With the target at 0 a frame multiplies a non-negative intensity by 0.96
and snaps it to 0 below 0.001. -/
theorem decay_step (s : State) (ht : s.targetIntensity = 0) (hc : 0 ≤ s.intensity) :
    (animate s).intensity =
      if s.intensity * 0.96 < 0.001 then 0 else s.intensity * 0.96 := by
  have h1 : ¬ s.targetIntensity > s.intensity := by rw [ht]; exact not_lt.mpr hc
  have h2 : s.intensity + (s.targetIntensity - s.intensity) * 0.04 = s.intensity * 0.96 := by
    rw [ht]; ring
  rw [animate_intensity, if_neg h1, h2]

theorem decay_step_le (s : State) (ht : s.targetIntensity = 0) (hc : 0 ≤ s.intensity) :
    0 ≤ (animate s).intensity ∧ (animate s).intensity ≤ s.intensity * 0.96 := by
  rw [decay_step s ht hc]
  split_ifs with h
  · exact ⟨le_refl _, by linarith⟩
  · exact ⟨by linarith, le_refl _⟩

theorem decay_frames (s : State) (ht : s.targetIntensity = 0) (hc : 0 ≤ s.intensity) (n : ℕ) :
    0 ≤ (frames n s).intensity ∧ (frames n s).intensity ≤ 0.96 ^ n * s.intensity := by
  induction n with
  | zero => exact ⟨hc, by simp [frames]⟩
  | succ n ih =>
    have h := decay_step_le (frames n s) (by rw [frames_targetIntensity, ht]) ih.1
    rw [frames_succ]
    refine ⟨h.1, h.2.trans ?_⟩
    rw [pow_succ]
    linarith [ih.2]

theorem decay_pow_small : (0.96 : ℚ) ^ 170 < 0.001 := by
  norm_num

/-- What the handlers do with the idle timer. (a) Every qualifying input arms
the one idle timer with 200 ms; the touch handler also arms it on every touch
move that carries a touch point, whatever its distance. (b) Once 200 ms have
passed after the timer was armed, with no qualifying input and no such touch
move in between, `targetIntensity` is exactly 0. (c) With the target at 0 and no
input, each frame multiplies the intensity by 0.96 or sets it to 0 once that is
below 0.001, so the intensity never increases, is bounded by `0.96 ^ n` times
its start after `n` frames, and, starting from at most 1, is exactly 0 from
frame 170 on. -/
theorem idle_timer (sqrt : ℚ → ℚ) (s : State) :
    (∀ e, Qualifies sqrt s e → (step sqrt s e).decayTimeout = some 200) ∧
    (∀ e, IsTouch e → (step sqrt s e).decayTimeout = some 200) ∧
    (∀ es, s.decayTimeout = some 200 → 200 ≤ elapsed es → NoQualifying sqrt s es →
      (∀ e ∈ es, ¬ IsTouch e) → (run sqrt s es).targetIntensity = 0) ∧
    (s.targetIntensity = 0 → 0 ≤ s.intensity →
      (animate s).targetIntensity = 0 ∧
      (animate s).intensity = (if s.intensity * 0.96 < 0.001 then 0 else s.intensity * 0.96) ∧
      (∀ n, (frames (n + 1) s).intensity ≤ (frames n s).intensity ∧
        0 ≤ (frames n s).intensity ∧ (frames n s).intensity ≤ 0.96 ^ n * s.intensity) ∧
      (s.intensity ≤ 1 → ∀ n, 170 ≤ n → (frames n s).intensity = 0)) := by
  refine ⟨qualifies_arms sqrt s, touch_arms sqrt s, ?_, ?_⟩
  · intro es hd hel hq ht
    exact idle_target_zero sqrt es s (Or.inr ⟨200, by norm_num, hd, hel⟩) hq ht
  · intro ht hc
    refine ⟨ht, decay_step s ht hc, ?_, ?_⟩
    · intro n
      have hn := decay_frames s ht hc n
      have h := decay_step_le (frames n s) (by rw [frames_targetIntensity, ht]) hn.1
      rw [frames_succ]
      exact ⟨by linarith [h.2], hn.1, hn.2⟩
    · intro h1 n hn
      obtain ⟨m, rfl⟩ : ∃ m, n = m + 1 := ⟨n - 1, by omega⟩
      have hle := (decay_frames s ht hc (m + 1)).2
      have hpow : (0.96 : ℚ) ^ (m + 1) ≤ 0.96 ^ 170 :=
        pow_le_pow_of_le_one (by norm_num) (by norm_num) hn
      have hsmall : (frames (m + 1) s).intensity < 0.001 :=
        calc (frames (m + 1) s).intensity ≤ 0.96 ^ (m + 1) * s.intensity := hle
          _ ≤ 0.96 ^ (m + 1) := mul_le_of_le_one_right (by positivity) h1
          _ ≤ 0.96 ^ 170 := hpow
          _ < 0.001 := decay_pow_small
      rw [frames_succ] at hsmall ⊢
      rcases animate_zero_or_ge (frames m s) with h0 | h0
      · exact h0
      · exact absurd hsmall (not_lt.mpr h0)

/-- The state after the first sample `(0, 0)` and a qualifying move to
`(3, 4)`: the target is `0.01` and the idle timer is armed. -/
theorem armed_state :
    run sqrtFloor (init 0) [.mousemove 0 0, .mousemove 3 4] =
      { time := 0, intensity := 0, targetIntensity := 0.01, lastScrollY := 0,
        hasInteracted := true, lastMouseX := 3, lastMouseY := 4, decayTimeout := some 200 } := by
  norm_num [run, step, onMouseMove, init, moved, sqrtFloor_twentyfive, maxIntensity]

/-- An instance of `idle_timer`: the timer armed by a qualifying move runs out
during 100 ms, a one-pixel mouse move and 100 ms more; a state with target 0
and intensity 1/2 decays. -/
theorem idle_timer_instance :
    (step sqrtFloor (run sqrtFloor (init 0) [.mousemove 0 0]) (.mousemove 3 4)).decayTimeout
        = some 200 ∧
      (run sqrtFloor (run sqrtFloor (init 0) [.mousemove 0 0, .mousemove 3 4])
        [.elapse 100, .mousemove 4 4, .elapse 100]).targetIntensity = 0 ∧
      (animate { init 0 with intensity := 1 / 2 }).intensity = 1 / 2 * 0.96 ∧
      (frames 170 { init 0 with intensity := 1 / 2 }).intensity = 0 := by
  refine ⟨?_, ?_, ?_, ?_⟩
  · exact (idle_timer sqrtFloor _).1 (.mousemove 3 4)
      ⟨by norm_num [run, step, onMouseMove, init],
        by norm_num [run, step, onMouseMove, init, moved, sqrtFloor_twentyfive]⟩
  · refine (idle_timer sqrtFloor _).2.2.1 _ (by rw [armed_state]) (by norm_num [elapsed]) ?_ ?_
    · rw [armed_state]
      norm_num [NoQualifying, Qualifies, step, elapse, onMouseMove, moved, sqrtFloor_one]
    · intro e he
      simp only [List.mem_cons, List.mem_singleton, List.not_mem_nil, or_false] at he
      rcases he with rfl | rfl | rfl <;> exact id
  · have h := ((idle_timer sqrtFloor { init 0 with intensity := 1 / 2 }).2.2.2 rfl
      (by norm_num [init])).2.1
    rw [h]
    norm_num [init]
  · exact ((idle_timer sqrtFloor { init 0 with intensity := 1 / 2 }).2.2.2 rfl
      (by norm_num [init])).2.2.2 (by norm_num [init]) 170 (le_refl _)

/-- C5 at a failing input. A qualifying move to `(3, 4)` arms the idle timer;
100 ms later a touch move arrives that does not leave the sample `(3, 4)`, so it
does not qualify, and 100 ms later, 200 ms after the last qualifying input,
`targetIntensity` is still `0.01`: the touch handler re-armed the timer. With a
mouse move to the same point in place of the touch move the timer runs out and
`targetIntensity` is 0. -/
theorem idle_decay_touch_rearm :
    (run sqrtFloor (init 0) [.mousemove 0 0, .mousemove 3 4]).decayTimeout = some 200 ∧
      NoQualifying sqrtFloor (run sqrtFloor (init 0) [.mousemove 0 0, .mousemove 3 4])
        [.elapse 100, .touchmove [(3, 4)], .elapse 100] ∧
      200 ≤ elapsed [.elapse 100, .touchmove [(3, 4)], .elapse 100] ∧
      (run sqrtFloor (run sqrtFloor (init 0) [.mousemove 0 0, .mousemove 3 4])
        [.elapse 100, .touchmove [(3, 4)], .elapse 100]).targetIntensity = 0.01 ∧
      (run sqrtFloor (run sqrtFloor (init 0) [.mousemove 0 0, .mousemove 3 4])
        [.elapse 100, .touchmove [(3, 4)], .elapse 100]).targetIntensity ≠ 0 ∧
      (run sqrtFloor (run sqrtFloor (init 0) [.mousemove 0 0, .mousemove 3 4])
        [.elapse 100]).decayTimeout = some 100 ∧
      (run sqrtFloor (run sqrtFloor (init 0) [.mousemove 0 0, .mousemove 3 4])
        [.elapse 100, .touchmove [(3, 4)]]).decayTimeout = some 200 ∧
      (run sqrtFloor (run sqrtFloor (init 0) [.mousemove 0 0, .mousemove 3 4])
        [.elapse 100, .mousemove 3 4]).decayTimeout = some 100 ∧
      (run sqrtFloor (run sqrtFloor (init 0) [.mousemove 0 0, .mousemove 3 4])
        [.elapse 100, .mousemove 3 4, .elapse 100]).targetIntensity = 0 := by
  rw [armed_state]
  norm_num [NoQualifying, Qualifies, run, step, elapse, onTouchMove, onMouseMove,
    onDecayTimeout, moved, sqrtFloor_zero, elapsed]

theorem rise_pow_bounds (n : ℕ) : (0 : ℚ) < (1 - 0.15) ^ n ∧ ((1 - 0.15 : ℚ)) ^ n ≤ 1 :=
  ⟨pow_pos (by norm_num) n, pow_le_one₀ (by norm_num) (by norm_num)⟩

theorem rise_frames (s : State) (ht : s.targetIntensity = 1.0) (hc : s.intensity = 0) (n : ℕ) :
    (frames n s).intensity = 1 - (1 - 0.15) ^ n := by
  induction n with
  | zero => simp [frames, hc]
  | succ n ih =>
    obtain ⟨hp0, hp1⟩ := rise_pow_bounds n
    have ht1 : (frames n s).targetIntensity = 1 := by
      rw [frames_targetIntensity, ht]; norm_num
    have hgt : (frames n s).targetIntensity > (frames n s).intensity := by
      rw [ht1, ih]; linarith
    have hval : (frames n s).intensity +
        ((frames n s).targetIntensity - (frames n s).intensity) * 0.15 =
        1 - (1 - 0.15) ^ (n + 1) := by
      rw [ht1, ih, pow_succ]; ring
    have hbig : ¬ (1 - (1 - 0.15 : ℚ) ^ (n + 1) < 0.001) := by
      rw [pow_succ]
      norm_num at hp1 ⊢
      linarith
    rw [frames_succ, animate_intensity, if_pos hgt, hval, if_neg hbig]

theorem rise_pow_small : ((1 - 0.15 : ℚ)) ^ 15 < 0.1 := by
  norm_num

/-- C6. Rise convergence: with `targetIntensity` held at 1.0 and `intensity`
starting at 0, after `N` frames the intensity is `1 - (1 - 0.15) ^ N`, and from
some frame `N ≤ 60` on (frame 15) it exceeds 0.9. -/
theorem rise_convergence (s : State) (ht : s.targetIntensity = 1.0) (hc : s.intensity = 0) :
    (∀ N, (frames N s).intensity = 1 - (1 - 0.15) ^ N) ∧
      ∃ N, N ≤ 60 ∧ ∀ M, N ≤ M → (frames M s).intensity > 0.9 := by
  refine ⟨rise_frames s ht hc, 15, by norm_num, fun M hM => ?_⟩
  rw [rise_frames s ht hc M]
  have h1 : ((1 - 0.15 : ℚ)) ^ M ≤ (1 - 0.15) ^ 15 :=
    pow_le_pow_of_le_one (by norm_num) (by norm_num) hM
  have h2 := rise_pow_small
  linarith

/-- The witness of C6: the constructor state with the target raised to 1. -/
theorem rise_convergence_witness :
    (frames 2 { init 0 with targetIntensity := 1.0 }).intensity = 1 - (1 - 0.15) ^ 2 ∧
      ∃ N, N ≤ 60 ∧ ∀ M, N ≤ M → (frames M { init 0 with targetIntensity := 1.0 }).intensity > 0.9 :=
  ⟨(rise_convergence { init 0 with targetIntensity := 1.0 } rfl rfl).1 2,
    (rise_convergence { init 0 with targetIntensity := 1.0 } rfl rfl).2⟩

end ASCIIBackground

namespace TextScramble

/-! ## The scramble controller -/

theorem CHARS_length : CHARS.length = 49 := by decide

theorem charAt_of_lt (text : JSString) (i : ℕ) (h : i < text.length) :
    charAt text i = [text.get ⟨i, h⟩] := by
  simp [charAt, List.getElem?_eq_getElem h]

theorem charAt_of_le (text : JSString) (i : ℕ) (h : text.length ≤ i) : charAt text i = [] := by
  simp [charAt, List.getElem?_eq_none h]

theorem charAt_nil (i : ℕ) : charAt [] i = [] :=
  charAt_of_le [] i (Nat.zero_le i)

theorem charAt_cons_zero (c : Char) (cs : JSString) : charAt (c :: cs) 0 = [c] := rfl

theorem charAt_cons_succ (c : Char) (cs : JSString) (i : ℕ) :
    charAt (c :: cs) (i + 1) = charAt cs i := rfl

/-- The value `Math.floor(Math.random() * n)` is one of `0, ..., n - 1`. -/
theorem floorMul_lt (d : Draw) (n : ℕ) (hn : 0 < n) : d.floorMul n < n := by
  have hn' : (0 : ℚ) < n := by exact_mod_cast hn
  have h0 : (0 : ℚ) ≤ d.val * n := mul_nonneg d.nonneg hn'.le
  have h1 : d.val * n < n := by
    have := mul_lt_mul_of_pos_right d.lt_one hn'
    simpa using this
  have hf0 : 0 ≤ ⌊d.val * n⌋ := Int.floor_nonneg.mpr h0
  have hf1 : ⌊d.val * n⌋ < (n : ℤ) := Int.floor_lt.mpr (by exact_mod_cast h1)
  unfold Draw.floorMul
  omega

/-- The method `randomChar()` returns one glyph of the scramble alphabet. -/
theorem randomChar_mem (rnd : ℕ → Draw) (k : ℕ) : ∃ g, g ∈ CHARS ∧ randomChar rnd k = [g] := by
  have h : (rnd k).floorMul CHARS.length < CHARS.length :=
    floorMul_lt _ _ (by rw [CHARS_length]; norm_num)
  exact ⟨CHARS.get ⟨_, h⟩, List.get_mem _ _ _, charAt_of_lt _ _ h⟩

/-- An iteration of the loop writes at most the `char` of its record. -/
theorem updateItem_static (rnd : ℕ → Draw) (frame : ℕ) (q : QItem) (k : ℕ) :
    (updateItem rnd frame q k).item.static = q.static := by
  unfold updateItem
  split_ifs <;> rfl

theorem updateLoop_static (rnd : ℕ → Draw) (frame : ℕ) (queue : List QItem) (k : ℕ) :
    (updateLoop rnd frame queue k).queue.map QItem.static = queue.map QItem.static := by
  induction queue generalizing k with
  | nil => rfl
  | cons q qs ih =>
    simp only [updateLoop, List.map_cons, updateItem_static, ih]

theorem updateLoop_length (rnd : ℕ → Draw) (frame : ℕ) (queue : List QItem) (k : ℕ) :
    (updateLoop rnd frame queue k).queue.length = queue.length := by
  have := congrArg List.length (updateLoop_static rnd frame queue k)
  simpa using this

theorem updateLoop_output (rnd : ℕ → Draw) (frame : ℕ) (queue : List QItem) (k : ℕ) :
    (updateLoop rnd frame queue k).output = (updatePieces rnd frame queue k).flatten := by
  induction queue generalizing k with
  | nil => rfl
  | cons q qs ih =>
    simp only [updateLoop, updatePieces, List.flatten_cons, ih]

theorem updateText_queue (dom : Dom) (s : State) (text : JSString) :
    (updateText dom s text).queue = s.queue := by
  simp only [updateText]
  split_ifs <;> rfl

theorem update_queue (dom : Dom) (rnd : ℕ → Draw) (s : State) :
    (update dom rnd s).queue = (updateLoop rnd s.frame s.queue s.draws).queue := by
  simp only [update]
  split_ifs <;> simp [requestFrame, updateText_queue]

theorem update_static (dom : Dom) (rnd : ℕ → Draw) (s : State) :
    (update dom rnd s).queue.map QItem.static = s.queue.map QItem.static := by
  rw [update_queue, updateLoop_static]

theorem tick_static (dom : Dom) (rnd : ℕ → Draw) (s : State) :
    (tick dom rnd s).queue.map QItem.static = s.queue.map QItem.static := by
  unfold tick
  split
  · rfl
  · unfold fire
    split_ifs
    · rw [update_static]
    · rfl

theorem buildQueue_static (rnd : ℕ → Draw) (cur target : JSString) (k : ℕ) :
    (buildQueue rnd cur target k).map QItem.static = buildQueue rnd cur target k := by
  simp [buildQueue, QItem.static, Function.comp_def]

theorem buildQueue_length (rnd : ℕ → Draw) (cur target : JSString) (k : ℕ) :
    (buildQueue rnd cur target k).length = max cur.length target.length := by
  simp [buildQueue]

theorem buildQueue_get (rnd : ℕ → Draw) (cur target : JSString) (k i : ℕ)
    (hi : i < max cur.length target.length) :
    (buildQueue rnd cur target k)[i]? = some
      { from_ := charAt cur i
        to_ := charAt target i
        start := i * 2
        end_ := i * 2 + 10 + (rnd (k + i)).floorMul 10
        char := [] } := by
  simp [buildQueue, List.getElem?_map, List.getElem?_range hi]

/-- The queue of every frame after `animateTo` holds the records `animateTo`
built, up to their `char`. -/
theorem framesAfter_static (dom : Dom) (rnd : ℕ → Draw) (s : State) (target : JSString) (n : ℕ) :
    (framesAfter dom rnd s target n).queue.map QItem.static =
      buildQueue rnd s.element.textContent target s.draws := by
  induction n with
  | zero =>
    simp only [framesAfter, Function.iterate_zero, id_eq, animateTo, update_static,
      buildQueue_static]
  | succ n ih =>
    rw [framesAfter, Function.iterate_succ_apply', tick_static]
    exact ih

theorem updateItem_before (rnd : ℕ → Draw) (frame : ℕ) (q : QItem) (k : ℕ)
    (h1 : frame < q.start) (h2 : frame < q.end_) :
    (updateItem rnd frame q k).piece = q.from_ ∧ (updateItem rnd frame q k).item = q := by
  simp [updateItem, not_le.mpr h1, not_le.mpr h2]

theorem updateItem_done (rnd : ℕ → Draw) (frame : ℕ) (q : QItem) (k : ℕ)
    (h : q.end_ ≤ frame) :
    (updateItem rnd frame q k).piece = q.to_ ∧ (updateItem rnd frame q k).item = q ∧
      (updateItem rnd frame q k).complete = 1 := by
  simp [updateItem, h]

theorem updateItem_not_done (rnd : ℕ → Draw) (frame : ℕ) (q : QItem) (k : ℕ)
    (h : frame < q.end_) : (updateItem rnd frame q k).complete = 0 := by
  simp only [updateItem, ge_iff_le, not_le.mpr h, if_false]
  split_ifs <;> rfl

theorem updateItem_whitespace (rnd : ℕ → Draw) (frame : ℕ) (q : QItem) (k : ℕ)
    (h1 : q.start ≤ frame) (hws : q.to_ = [' '] ∨ q.to_ = ['\n']) :
    (updateItem rnd frame q k).piece = q.to_ ∧ (updateItem rnd frame q k).item = q := by
  have hc : ¬ (q.to_ ≠ [' '] ∧ q.to_ ≠ ['\n']) := by
    rcases hws with h | h <;> simp [h]
  simp only [updateItem, ge_iff_le, h1, if_true, if_neg hc]
  split_ifs <;> exact ⟨rfl, rfl⟩

theorem updateItem_keeps_whitespace (rnd : ℕ → Draw) (frame : ℕ) (q : QItem) (k : ℕ)
    (hws : q.to_ = [' '] ∨ q.to_ = ['\n']) : (updateItem rnd frame q k).item = q := by
  have hc : ¬ (q.to_ ≠ [' '] ∧ q.to_ ≠ ['\n']) := by
    rcases hws with h | h <;> simp [h]
  simp only [updateItem, if_neg hc]
  split_ifs <;> rfl

/-- Between `start` and `end` a record whose target is no space and no newline
displays the glyph it then holds, and keeps the glyph it held unless it held
none or the draw it consults is below 0.28. -/
theorem updateItem_glyph (rnd : ℕ → Draw) (frame : ℕ) (q : QItem) (k : ℕ)
    (h1 : q.start ≤ frame) (h2 : frame < q.end_) (hs : q.to_ ≠ [' ']) (hn : q.to_ ≠ ['\n'])
    (hc : q.char = [] ∨ Glyph q.char) :
    Glyph (updateItem rnd frame q k).piece ∧
      (updateItem rnd frame q k).item.char = (updateItem rnd frame q k).piece ∧
      ((updateItem rnd frame q k).piece ≠ q.char → q.char = [] ∨ (rnd k).val < 0.28) := by
  have hws : q.to_ ≠ [' '] ∧ q.to_ ≠ ['\n'] := ⟨hs, hn⟩
  simp only [updateItem, ge_iff_le, not_le.mpr h2, if_false, h1, if_true, if_pos hws]
  split_ifs with h3 h4
  · exact ⟨randomChar_mem rnd k, rfl, fun _ => Or.inl h3⟩
  · exact ⟨randomChar_mem rnd (k + 1), rfl, fun _ => Or.inr h4⟩
  · exact ⟨hc.resolve_left h3, rfl, fun h => absurd rfl h⟩

theorem updateItem_chosen (rnd : ℕ → Draw) (frame : ℕ) (q : QItem) (k : ℕ)
    (hc : q.char = [] ∨ Glyph q.char) :
    (updateItem rnd frame q k).item.char = [] ∨ Glyph (updateItem rnd frame q k).item.char := by
  unfold updateItem
  split_ifs
  · exact hc
  · exact Or.inr (randomChar_mem rnd k)
  · exact Or.inr (randomChar_mem rnd (k + 1))
  · exact hc
  · exact hc
  · exact hc

theorem updateLoop_chosen (rnd : ℕ → Draw) (frame : ℕ) (queue : List QItem) (k : ℕ)
    (h : Chosen queue) : Chosen (updateLoop rnd frame queue k).queue := by
  induction queue generalizing k with
  | nil => exact fun q hq => absurd hq (List.not_mem_nil q)
  | cons q qs ih =>
    intro q' hq'
    simp only [updateLoop, List.mem_cons] at hq'
    rcases hq' with rfl | hq'
    · exact updateItem_chosen rnd frame q k (h q (List.mem_cons_self _ _))
    · exact ih _ (fun x hx => h x (List.mem_cons_of_mem _ hx)) q' hq'

theorem update_chosen (dom : Dom) (rnd : ℕ → Draw) (s : State) (h : Chosen s.queue) :
    Chosen (update dom rnd s).queue := by
  rw [update_queue]
  exact updateLoop_chosen rnd _ _ _ h

theorem tick_chosen (dom : Dom) (rnd : ℕ → Draw) (s : State) (h : Chosen s.queue) :
    Chosen (tick dom rnd s).queue := by
  unfold tick
  split
  · exact h
  · unfold fire
    split_ifs
    · exact update_chosen dom rnd _ h
    · exact h

theorem buildQueue_chosen (rnd : ℕ → Draw) (cur target : JSString) (k : ℕ) :
    Chosen (buildQueue rnd cur target k) := by
  intro q hq
  simp only [buildQueue, List.mem_map] at hq
  obtain ⟨i, -, rfl⟩ := hq
  exact Or.inl rfl

theorem framesAfter_chosen (dom : Dom) (rnd : ℕ → Draw) (s : State) (target : JSString) (n : ℕ) :
    Chosen (framesAfter dom rnd s target n).queue := by
  induction n with
  | zero => exact update_chosen dom rnd _ (buildQueue_chosen rnd _ _ _)
  | succ n ih =>
    rw [framesAfter, Function.iterate_succ_apply']
    exact tick_chosen dom rnd _ ih

/-- Queue position `i` displays what its iteration yields, which starts when
`drawsBefore` draws have been consumed. -/
theorem updatePieces_get (rnd : ℕ → Draw) (frame : ℕ) (queue : List QItem) (k i : ℕ) :
    (updatePieces rnd frame queue k)[i]? =
      (queue[i]?).map fun q => (updateItem rnd frame q (drawsBefore rnd frame queue k i)).piece := by
  induction queue generalizing k i with
  | nil => rfl
  | cons q qs ih =>
    cases i with
    | zero => simp [updatePieces, drawsBefore]
    | succ i => simp only [updatePieces, List.getElem?_cons_succ, drawsBefore, ih]

theorem updateLoop_get (rnd : ℕ → Draw) (frame : ℕ) (queue : List QItem) (k i : ℕ) :
    (updateLoop rnd frame queue k).queue[i]? =
      (queue[i]?).map fun q => (updateItem rnd frame q (drawsBefore rnd frame queue k i)).item := by
  induction queue generalizing k i with
  | nil => rfl
  | cons q qs ih =>
    cases i with
    | zero => simp [updateLoop, drawsBefore]
    | succ i => simp only [updateLoop, List.getElem?_cons_succ, drawsBefore, ih]

/-- A queue that agrees with the built one up to `char` has, at position `i`,
the built record with some `char`. -/
theorem get_of_static (queue built : List QItem) (h : queue.map QItem.static = built)
    (i : ℕ) (q : QItem) (hq : built[i]? = some q) :
    ∃ q', queue[i]? = some q' ∧ q'.static = q := by
  subst h
  rw [List.getElem?_map] at hq
  cases hq' : queue[i]? with
  | none => rw [hq'] at hq; cases hq
  | some q' =>
    rw [hq'] at hq
    exact ⟨q', rfl, by simpa using hq⟩

/-- What queue position `i` displays in the `update()` of frame `f`, run on a
queue that holds the records `animateTo` built: `c` is the glyph the record
held, `p` the text displayed, `c'` the glyph the record holds afterwards. -/
theorem position_display (rnd : ℕ → Draw) (cur target : JSString) (k i : ℕ)
    (hi : i < max cur.length target.length) (queue : List QItem) (f k' : ℕ)
    (hq : queue.map QItem.static = buildQueue rnd cur target k) (hc : Chosen queue) :
    ∃ c p c', (queue[i]?).map QItem.char = some c ∧
      (updatePieces rnd f queue k')[i]? = some p ∧
      ((updateLoop rnd f queue k').queue[i]?).map QItem.char = some c' ∧
      (f < 2 * i → p = charAt cur i ∧ c' = c) ∧
      (2 * i + 10 + (rnd (k + i)).floorMul 10 ≤ f → p = charAt target i ∧ c' = c) ∧
      (2 * i ≤ f → f < 2 * i + 10 + (rnd (k + i)).floorMul 10 →
        charAt target i ≠ [' '] → charAt target i ≠ ['\n'] →
        Glyph p ∧ c' = p ∧
          (p ≠ c → c = [] ∨ (rnd (drawsBefore rnd f queue k' i)).val < 0.28)) ∧
      (charAt target i = [' '] ∨ charAt target i = ['\n'] →
        c' = c ∧ (2 * i ≤ f → p = charAt target i)) := by
  obtain ⟨q, hget, hst⟩ := get_of_static queue _ hq i _ (buildQueue_get rnd cur target k i hi)
  have hfrom : q.from_ = charAt cur i := congrArg QItem.from_ hst
  have hto : q.to_ = charAt target i := congrArg QItem.to_ hst
  have hstart : q.start = i * 2 := congrArg QItem.start hst
  have hend : q.end_ = i * 2 + 10 + (rnd (k + i)).floorMul 10 := congrArg QItem.end_ hst
  have hchar : q.char = [] ∨ Glyph q.char := hc q (List.getElem?_mem hget)
  refine ⟨q.char, (updateItem rnd f q (drawsBefore rnd f queue k' i)).piece,
    (updateItem rnd f q (drawsBefore rnd f queue k' i)).item.char, ?_, ?_, ?_, ?_, ?_, ?_, ?_⟩
  · rw [hget]; rfl
  · rw [updatePieces_get, hget]; rfl
  · rw [updateLoop_get, hget]; rfl
  · intro hf
    have h := updateItem_before rnd f q (drawsBefore rnd f queue k' i) (by omega) (by omega)
    rw [h.1, h.2]
    exact ⟨hfrom, rfl⟩
  · intro hf
    have h := updateItem_done rnd f q (drawsBefore rnd f queue k' i) (by omega)
    rw [h.1, h.2.1]
    exact ⟨hto, rfl⟩
  · intro hf1 hf2 hs hn
    rw [← hto] at hs hn
    have h := updateItem_glyph rnd f q (drawsBefore rnd f queue k' i) (by omega) (by omega)
      hs hn hchar
    exact ⟨h.1, h.2.1, h.2.2⟩
  · intro hws
    rw [← hto] at hws
    refine ⟨by rw [updateItem_keeps_whitespace rnd f q _ hws], fun hf => ?_⟩
    rw [(updateItem_whitespace rnd f q _ (by omega) hws).1, hto]

/-- C9. Scramble queue length: for a target text of length `L` and a displayed
text of length `P`, the queue `animateTo` leaves has exactly `max(L, P)`
records, and record `i` has `from` the displayed code unit at `i` (empty past
`P`) and `to` the target code unit at `i` (empty past `L`). -/
theorem queue_length (dom : Dom) (rnd : ℕ → Draw) (s : State) (target : JSString) :
    (animateTo dom rnd s target).queue.length =
        max target.length s.element.textContent.length ∧
      ∀ i, i < max target.length s.element.textContent.length →
        ∃ q, (animateTo dom rnd s target).queue[i]? = some q ∧
          q.from_ = (s.element.textContent.get? i).toList ∧
          q.to_ = (target.get? i).toList := by
  have hs := framesAfter_static dom rnd s target 0
  simp only [framesAfter, Function.iterate_zero, id_eq] at hs
  have hlen := congrArg List.length hs
  rw [List.length_map, buildQueue_length] at hlen
  refine ⟨by rw [hlen, max_comm], fun i hi => ?_⟩
  rw [max_comm] at hi
  have hget := congrArg (fun l => l[i]?) hs
  simp only [List.getElem?_map, buildQueue_get rnd _ _ _ i hi] at hget
  cases hq : (animateTo dom rnd s target).queue[i]? with
  | none => rw [hq] at hget; cases hget
  | some q =>
    rw [hq] at hget
    simp only [Option.map_some', Option.some.injEq] at hget
    refine ⟨q, rfl, ?_, ?_⟩
    · have := congrArg QItem.from_ hget
      exact this
    · have := congrArg QItem.to_ hget
      exact this

/-- An instance of C9: from `"xy"` displayed to the target `"HI!"` the queue has
three records, and record 2 goes from the empty string to `!`. -/
theorem queue_length_witness :
    (animateTo domPlain rndZero (construct (plainElement "xy".toList) 0 0)
        "HI!".toList).queue.length = 3 ∧
      ∃ q, (animateTo domPlain rndZero (construct (plainElement "xy".toList) 0 0)
          "HI!".toList).queue[2]? = some q ∧ q.from_ = [] ∧ q.to_ = ['!'] :=
  ⟨(queue_length domPlain rndZero (construct (plainElement "xy".toList) 0 0) "HI!".toList).1,
    (queue_length domPlain rndZero (construct (plainElement "xy".toList) 0 0) "HI!".toList).2 2
      (by decide)⟩

theorem rndZero_floorMul (k n : ℕ) : (rndZero k).floorMul n = 0 := by
  simp [rndZero, drawZero, Draw.floorMul]

theorem rndZero_randomChar (k : ℕ) : randomChar rndZero k = ['A'] := by
  rw [randomChar, rndZero_floorMul]
  rfl

/-- Whitespace positions, without any assumption on the glyphs held. -/
theorem whitespace_display (rnd : ℕ → Draw) (cur target : JSString) (k i : ℕ)
    (hws : charAt target i = [' '] ∨ charAt target i = ['\n']) (queue : List QItem) (f k' : ℕ)
    (hq : queue.map QItem.static = buildQueue rnd cur target k) :
    ∃ c p c', (queue[i]?).map QItem.char = some c ∧
      (updatePieces rnd f queue k')[i]? = some p ∧
      ((updateLoop rnd f queue k').queue[i]?).map QItem.char = some c' ∧
      c' = c ∧ (2 * i ≤ f → p = charAt target i) ∧ (f < 2 * i → p = charAt cur i) := by
  have hi : i < max cur.length target.length := by
    by_contra hcon
    rw [charAt_of_le target i (by omega)] at hws
    rcases hws with h | h <;> cases h
  obtain ⟨q, hget, hst⟩ := get_of_static queue _ hq i _ (buildQueue_get rnd cur target k i hi)
  have hfrom : q.from_ = charAt cur i := congrArg QItem.from_ hst
  have hto : q.to_ = charAt target i := congrArg QItem.to_ hst
  have hstart : q.start = i * 2 := congrArg QItem.start hst
  have hend : q.end_ = i * 2 + 10 + (rnd (k + i)).floorMul 10 := congrArg QItem.end_ hst
  rw [← hto] at hws
  refine ⟨q.char, (updateItem rnd f q (drawsBefore rnd f queue k' i)).piece,
    (updateItem rnd f q (drawsBefore rnd f queue k' i)).item.char, ?_, ?_, ?_, ?_, ?_, ?_⟩
  · rw [hget]; rfl
  · rw [updatePieces_get, hget]; rfl
  · rw [updateLoop_get, hget]; rfl
  · rw [updateItem_keeps_whitespace rnd f q _ hws]
  · intro hf
    rw [(updateItem_whitespace rnd f q _ (by omega) hws).1, hto]
  · intro hf
    rw [(updateItem_before rnd f q _ (by omega) (by omega)).1, hfrom]

theorem scrambleText_length (rnd : ℕ → Draw) (text : JSString) (k : ℕ) :
    (scrambleText rnd text k).1.length = text.length := by
  induction text generalizing k with
  | nil => rfl
  | cons c cs ih =>
    simp only [scrambleText]
    split_ifs
    · simp [ih]
    · obtain ⟨g, -, hg⟩ := randomChar_mem rnd k
      simp [hg, ih]

/-- The scramble of a text keeps its spaces and newlines in place. -/
theorem scrambleText_whitespace (rnd : ℕ → Draw) (text : JSString) (k i : ℕ)
    (hws : charAt text i = [' '] ∨ charAt text i = ['\n']) :
    charAt (scrambleText rnd text k).1 i = charAt text i := by
  induction text generalizing k i with
  | nil => simp [charAt_nil] at hws
  | cons c cs ih =>
    simp only [scrambleText]
    cases i with
    | zero =>
      have hc : c = ' ' ∨ c = '\n' := by
        simpa [charAt_cons_zero] using hws
      rw [if_pos hc]
      rfl
    | succ i =>
      rw [charAt_cons_succ] at hws ⊢
      split_ifs
      · exact ih k i hws
      · obtain ⟨g, -, hg⟩ := randomChar_mem rnd k
        rw [hg]
        exact ih (k + 1) i hws

/-- C8, as the code has it. A queue position whose target is a space or a
newline is never randomized: at every frame its record keeps the `char` it had
(no glyph is drawn for it), from its start frame `2 * i` on it displays the
target character, and before that frame it displays the prior text's character
at that position. Where the prior text agrees with the target at that position,
as it does when it is a scramble of the target text, the position displays the
target character at every frame, frame 0 included. -/
theorem whitespace_not_randomized (rnd : ℕ → Draw) (cur target : JSString) (k i : ℕ)
    (hws : charAt target i = [' '] ∨ charAt target i = ['\n']) :
    (∀ dom s n, s.element.textContent = cur → s.draws = k →
      (framesAfter dom rnd s target n).queue.map QItem.static = buildQueue rnd cur target k) ∧
    (∀ queue f k', queue.map QItem.static = buildQueue rnd cur target k →
      ∃ c p c', (queue[i]?).map QItem.char = some c ∧
        (updatePieces rnd f queue k')[i]? = some p ∧
        ((updateLoop rnd f queue k').queue[i]?).map QItem.char = some c' ∧
        c' = c ∧ (2 * i ≤ f → p = charAt target i) ∧ (f < 2 * i → p = charAt cur i) ∧
        (charAt cur i = charAt target i → p = charAt target i)) ∧
    (∀ rnd' k0, cur = (scrambleText rnd' target k0).1 → charAt cur i = charAt target i) := by
  refine ⟨?_, ?_, ?_⟩
  · intro dom s n h1 h2
    rw [← h1, ← h2]
    exact framesAfter_static dom rnd s target n
  · intro queue f k' hq
    obtain ⟨c, p, c', h1, h2, h3, h4, h5, h6⟩ :=
      whitespace_display rnd cur target k i hws queue f k' hq
    refine ⟨c, p, c', h1, h2, h3, h4, h5, h6, fun heq => ?_⟩
    rcases Nat.lt_or_ge f (2 * i) with hf | hf
    · rw [h6 hf, heq]
    · exact h5 hf
  · intro rnd' k0 hcur
    rw [hcur]
    exact scrambleText_whitespace rnd' target k0 i hws

/-- The witness of C8: the space of `"A B"`, reached from its scramble. -/
theorem whitespace_not_randomized_witness :
    charAt (scrambleText rndZero "A B".toList 0).1 1 = charAt "A B".toList 1 :=
  (whitespace_not_randomized rndZero (scrambleText rndZero "A B".toList 0).1 "A B".toList 0 1
    (Or.inl rfl)).2.2 rndZero 0 rfl

/-- C8 fails as stated: with `"ab"` displayed and the target `"a "`, position 1
has a space as its target and still displays `b` at frame 0, which is before
its start frame 2. -/
theorem whitespace_counterexample :
    charAt "a ".toList 1 = [' '] ∧
      (updatePieces rndZero 0 (buildQueue rndZero "ab".toList "a ".toList 0) 2)[1]? =
        some ['b'] ∧
      (animateTo domPlain rndZero (construct (plainElement "ab".toList) 0 0)
        "a ".toList).element.textContent = "Ab".toList := by
  refine ⟨rfl, ?_, ?_⟩
  · simp [buildQueue, List.range_succ, updatePieces, updateItem, rndZero_floorMul,
      rndZero_randomChar, charAt]
  · have hbr : ¬ (['<', 'b', 'r', '>'] <:+: ['a', 'b']) := by decide
    simp [animateTo, update, updateText, construct, plainElement, buildQueue, List.range_succ,
      updateLoop, updateItem, rndZero_floorMul, rndZero_randomChar, charAt, domPlain,
      Element.setTextContent, requestFrame, hbr]

theorem updateItem_complete (rnd : ℕ → Draw) (frame : ℕ) (q : QItem) (k : ℕ) :
    (updateItem rnd frame q k).complete = if q.end_ ≤ frame then 1 else 0 := by
  split_ifs with h
  · exact (updateItem_done rnd frame q k h).2.2
  · exact updateItem_not_done rnd frame q k (not_le.mp h)

/-- The loop counts the records whose end frame has come. -/
theorem updateLoop_complete (rnd : ℕ → Draw) (frame : ℕ) (queue : List QItem) (k : ℕ) :
    (updateLoop rnd frame queue k).complete =
      queue.countP fun q => decide (q.end_ ≤ frame) := by
  induction queue generalizing k with
  | nil => rfl
  | cons q qs ih =>
    simp only [updateLoop, updateItem_complete, ih, List.countP_cons, decide_eq_true_eq]
    omega

/-- When every record has reached its end frame the output is the
concatenation of the targets. -/
theorem updateLoop_output_done (rnd : ℕ → Draw) (frame : ℕ) (queue : List QItem) (k : ℕ)
    (h : ∀ q ∈ queue, q.end_ ≤ frame) :
    (updateLoop rnd frame queue k).output = (queue.map QItem.to_).flatten := by
  induction queue generalizing k with
  | nil => rfl
  | cons q qs ih =>
    have hq := updateItem_done rnd frame q k (h q (List.mem_cons_self _ _))
    simp only [updateLoop, hq.1, List.map_cons, List.flatten_cons,
      ih _ (fun x hx => h x (List.mem_cons_of_mem _ hx))]

theorem flatten_charAt (text : JSString) (m : ℕ) (h : text.length ≤ m) :
    ((List.range m).map (charAt text)).flatten = text := by
  induction text generalizing m with
  | nil =>
    rw [List.flatten_eq_nil_iff]
    intro l hl
    obtain ⟨i, -, rfl⟩ := List.mem_map.mp hl
    exact charAt_nil i
  | cons c cs ih =>
    obtain ⟨m, rfl⟩ : ∃ m', m = m' + 1 := ⟨m - 1, by simp at h; omega⟩
    rw [List.range_succ_eq_map, List.map_cons, List.map_map, List.flatten_cons]
    have hcomp : charAt (c :: cs) ∘ Nat.succ = charAt cs := by
      funext i
      rfl
    rw [hcomp, ih m (by simpa using h)]
    rfl

/-- The targets of the built queue spell the target text. -/
theorem buildQueue_targets (rnd : ℕ → Draw) (cur target : JSString) (k : ℕ) :
    ((buildQueue rnd cur target k).map QItem.to_).flatten = target := by
  have h : (buildQueue rnd cur target k).map QItem.to_ =
      (List.range (max cur.length target.length)).map (charAt target) := by
    simp [buildQueue, Function.comp_def]
  rw [h]
  exact flatten_charAt target _ (le_max_right _ _)

/-- Record `i` of the built queue ends at frame `2 * i + 19` at the latest. -/
theorem buildQueue_end_le (rnd : ℕ → Draw) (cur target : JSString) (k : ℕ) (q : QItem)
    (hq : q ∈ buildQueue rnd cur target k) :
    q.end_ + 2 ≤ 2 * max cur.length target.length + 19 := by
  simp only [buildQueue, List.mem_map, List.mem_range] at hq
  obtain ⟨i, hi, rfl⟩ := hq
  have := floorMul_lt (rnd (k + i)) 10 (by norm_num)
  show i * 2 + 10 + (rnd (k + i)).floorMul 10 + 2 ≤ _
  omega

theorem static_end (queue : List QItem) (f : ℕ) :
    (∀ q ∈ queue.map QItem.static, q.end_ ≤ f) ↔ ∀ q ∈ queue, q.end_ ≤ f := by
  simp [QItem.static]

theorem static_targets (queue : List QItem) :
    (queue.map QItem.static).map QItem.to_ = queue.map QItem.to_ := by
  simp [QItem.static, Function.comp_def]

/-- What `update()` leaves in an element without `<br>` in its markup. -/
theorem update_plain (dom : Dom) (rnd : ℕ → Draw) (s : State)
    (hbr : ¬ "<br>".toList <:+: s.originalHTML) :
    (update dom rnd s).element.textContent = (updateLoop rnd s.frame s.queue s.draws).output ∧
      (update dom rnd s).originalHTML = s.originalHTML ∧
      (update dom rnd s).frame = s.frame ∧
      (update dom rnd s).pending =
        if (updateLoop rnd s.frame s.queue s.draws).complete < s.queue.length then
          s.pending ++ [s.nextHandle + 1]
        else s.pending := by
  simp only [update, updateText, if_neg hbr, updateLoop_length]
  split_ifs <;> exact ⟨rfl, rfl, rfl, rfl⟩

/-- One animation frame of a running reveal in an element without `<br>`: the
frame loop stops with the target text displayed when every record has reached
its end frame, and requests exactly one more frame otherwise. -/
theorem tick_running (dom : Dom) (rnd : ℕ → Draw) (s : State) (h : ℕ)
    (hbr : ¬ "<br>".toList <:+: s.originalHTML) (hp : s.pending = [h]) :
    (tick dom rnd s).originalHTML = s.originalHTML ∧
      (tick dom rnd s).frame = s.frame + 1 ∧
      ((∀ q ∈ s.queue, q.end_ ≤ s.frame + 1) →
        (tick dom rnd s).pending = [] ∧
          (tick dom rnd s).element.textContent = (s.queue.map QItem.to_).flatten) ∧
      (¬ (∀ q ∈ s.queue, q.end_ ≤ s.frame + 1) → ∃ h', (tick dom rnd s).pending = [h']) := by
  have htick : tick dom rnd s =
      update dom rnd { s with pending := [], frame := s.frame + 1 } := by
    simp [tick, fire, hp]
  have hu := update_plain dom rnd { s with pending := [], frame := s.frame + 1 } hbr
  rw [htick]
  refine ⟨hu.2.1, hu.2.2.1, fun hdone => ?_, fun hnot => ?_⟩
  · have hc : (updateLoop rnd (s.frame + 1) s.queue s.draws).complete = s.queue.length := by
      rw [updateLoop_complete, List.countP_eq_length]
      simpa using hdone
    refine ⟨?_, ?_⟩
    · rw [hu.2.2.2]
      simp [hc]
    · rw [hu.1]
      exact updateLoop_output_done rnd _ _ _ hdone
  · have hc : (updateLoop rnd (s.frame + 1) s.queue s.draws).complete < s.queue.length := by
      refine lt_of_le_of_ne (by rw [updateLoop_complete]; exact List.countP_le_length _) ?_
      rw [updateLoop_complete, Ne, List.countP_eq_length]
      simpa using hnot
    refine ⟨s.nextHandle + 1, ?_⟩
    rw [hu.2.2.2]
    simp [hc]

/-- The state of a reveal `n` frames after `animateTo`, in an element without
`<br>` and with no callback pending before: either the loop is running, with
one callback pending, at frame `n`, and some record has not reached its end
frame, or it has stopped with the target text displayed. -/
theorem reveal_invariant (dom : Dom) (rnd : ℕ → Draw) (s : State) (target : JSString)
    (hbr : ¬ "<br>".toList <:+: s.originalHTML) (hp : s.pending = []) (n : ℕ) :
    (framesAfter dom rnd s target n).originalHTML = s.originalHTML ∧
      (((∃ h, (framesAfter dom rnd s target n).pending = [h]) ∧
          (framesAfter dom rnd s target n).frame = n ∧
          ¬ ∀ q ∈ buildQueue rnd s.element.textContent target s.draws, q.end_ ≤ n) ∨
        ((framesAfter dom rnd s target n).pending = [] ∧
          (framesAfter dom rnd s target n).element.textContent = target)) := by
  induction n with
  | zero =>
    have hu := update_plain dom rnd
      { s with
        queue := buildQueue rnd s.element.textContent target s.draws
        draws := s.draws + max s.element.textContent.length target.length
        frame := 0 } hbr
    simp only [framesAfter, Function.iterate_zero, id_eq, animateTo]
    refine ⟨hu.2.1, ?_⟩
    by_cases hdone : ∀ q ∈ buildQueue rnd s.element.textContent target s.draws, q.end_ ≤ 0
    · right
      have hc : (updateLoop rnd 0 (buildQueue rnd s.element.textContent target s.draws)
          (s.draws + max s.element.textContent.length target.length)).complete =
          (buildQueue rnd s.element.textContent target s.draws).length := by
        rw [updateLoop_complete, List.countP_eq_length]
        simpa using hdone
      refine ⟨?_, ?_⟩
      · rw [hu.2.2.2]
        simp [hc, hp]
      · rw [hu.1]
        exact (updateLoop_output_done rnd _ _ _ hdone).trans (buildQueue_targets rnd _ _ _)
    · left
      have hc : (updateLoop rnd 0 (buildQueue rnd s.element.textContent target s.draws)
          (s.draws + max s.element.textContent.length target.length)).complete <
          (buildQueue rnd s.element.textContent target s.draws).length := by
        refine lt_of_le_of_ne (by rw [updateLoop_complete]; exact List.countP_le_length _) ?_
        rw [updateLoop_complete, Ne, List.countP_eq_length]
        simpa using hdone
      refine ⟨⟨s.nextHandle + 1, ?_⟩, hu.2.2.1, hdone⟩
      rw [hu.2.2.2]
      simp [hc, hp]
  | succ n ih =>
    have hstatic := framesAfter_static dom rnd s target n
    have hsucc : framesAfter dom rnd s target (n + 1) =
        tick dom rnd (framesAfter dom rnd s target n) := by
      rw [framesAfter, Function.iterate_succ_apply']
      rfl
    obtain ⟨hH, hrun | hstop⟩ := ih
    · obtain ⟨⟨h, hpend⟩, hframe, -⟩ := hrun
      have ht := tick_running dom rnd (framesAfter dom rnd s target n) h (by rw [hH]; exact hbr)
        hpend
      rw [hsucc]
      refine ⟨ht.1.trans hH, ?_⟩
      by_cases hdone : ∀ q ∈ buildQueue rnd s.element.textContent target s.draws, q.end_ ≤ n + 1
      · right
        have hdone' : ∀ q ∈ (framesAfter dom rnd s target n).queue,
            q.end_ ≤ (framesAfter dom rnd s target n).frame + 1 := by
          rw [hframe, ← static_end, hstatic]
          exact hdone
        refine ⟨(ht.2.2.1 hdone').1, ?_⟩
        rw [(ht.2.2.1 hdone').2, ← static_targets, hstatic]
        exact buildQueue_targets rnd _ _ _
      · left
        have hdone' : ¬ ∀ q ∈ (framesAfter dom rnd s target n).queue,
            q.end_ ≤ (framesAfter dom rnd s target n).frame + 1 := by
          rw [hframe, ← static_end, hstatic]
          exact hdone
        exact ⟨ht.2.2.2 hdone', by rw [ht.2.1, hframe], hdone⟩
    · have htick : tick dom rnd (framesAfter dom rnd s target n) =
          framesAfter dom rnd s target n := by
        simp [tick, hstop.1]
      rw [hsucc, htick]
      exact ⟨hH, Or.inr hstop⟩

/-- A reveal in an element without `<br>` has stopped, with the target text
displayed, at every frame from `2 * (m - 1) + 19` on, `m` the length of the
queue. -/
theorem reveal_completes (dom : Dom) (rnd : ℕ → Draw) (s : State) (target : JSString)
    (hbr : ¬ "<br>".toList <:+: s.originalHTML) (hp : s.pending = []) (n : ℕ)
    (hn : 2 * max s.element.textContent.length target.length + 17 ≤ n) :
    (framesAfter dom rnd s target n).pending = [] ∧
      (framesAfter dom rnd s target n).element.textContent = target := by
  obtain ⟨-, hrun | hstop⟩ := reveal_invariant dom rnd s target hbr hp n
  · exfalso
    refine hrun.2.2 (fun q hq => ?_)
    have := buildQueue_end_le rnd _ _ _ q hq
    omega
  · exact hstop

theorem initHeader_plain (dom : Dom) (rnd : ℕ → Draw) (element : Element) (nextHandle draws : ℕ)
    (hbr : ¬ "<br>".toList <:+: element.innerHTML) :
    initHeader dom rnd element nextHandle draws =
      { construct element nextHandle draws with
        draws := (scrambleText rnd element.textContent draws).2
        element := (construct element nextHandle draws).element.setTextContent dom
          (scrambleText rnd element.textContent draws).1 } := by
  simp only [initHeader, setScrambled, updateText, construct, if_neg hbr]

/-- C7. End-to-end reveal: for an element of text length `L` without `<br>` in
its markup, scrambled by `initHeader` and then revealed, whatever the random
draws, after every number `n ≥ 2 * (L - 1) + 19` of animation frames the
displayed text is exactly the original text and no frame callback is pending:
the frame loop has stopped by then. -/
theorem reveal_end_to_end (dom : Dom) (rnd : ℕ → Draw) (element : Element)
    (nextHandle draws n : ℕ) (hbr : ¬ "<br>".toList <:+: element.innerHTML)
    (hn : 2 * ((element.textContent.length : ℤ) - 1) + 19 ≤ n) :
    ((tick dom rnd)^[n]
        (reveal dom rnd (initHeader dom rnd element nextHandle draws))).element.textContent =
        element.textContent ∧
      ((tick dom rnd)^[n]
        (reveal dom rnd (initHeader dom rnd element nextHandle draws))).pending = [] := by
  have hrev : reveal dom rnd (initHeader dom rnd element nextHandle draws) =
      animateTo dom rnd
        { initHeader dom rnd element nextHandle draws with isRevealed := true }
        element.textContent := by
    rw [initHeader_plain dom rnd element nextHandle draws hbr]
    simp [reveal, construct, cancelAnimation]
  have h := reveal_completes dom rnd
    { initHeader dom rnd element nextHandle draws with isRevealed := true } element.textContent
    (by rw [initHeader_plain dom rnd element nextHandle draws hbr]; exact hbr)
    (by rw [initHeader_plain dom rnd element nextHandle draws hbr]; rfl) n
    (by
      rw [initHeader_plain dom rnd element nextHandle draws hbr]
      simp only [Element.setTextContent, scrambleText_length, max_self]
      omega)
  rw [hrev]
  exact ⟨h.2, h.1⟩

/-- The witness of C7: `HELLO`, 27 frames after `reveal()`. -/
theorem reveal_end_to_end_witness :
    ((tick domPlain rndZero)^[27]
        (reveal domPlain rndZero
          (initHeader domPlain rndZero (plainElement "HELLO".toList) 0 0))).element.textContent =
        "HELLO".toList ∧
      ((tick domPlain rndZero)^[27]
        (reveal domPlain rndZero
          (initHeader domPlain rndZero (plainElement "HELLO".toList) 0 0))).pending = [] :=
  reveal_end_to_end domPlain rndZero (plainElement "HELLO".toList) 0 0 27 (by decide)
    (by simp [plainElement])

/-- C10. Per-character timing: record `i` of the queue `animateTo` builds has
`start = 2 * i` and `end = 2 * i + 10 + r` with `r` in `0..9`. Every frame of the
animation works on these records (only `char` changes, and it is empty or a
glyph of the scramble alphabet). In the `update()` of frame `f`, whose output is
the concatenation of what the positions display: before `start` position `i`
displays the prior text's character; from `end` on it displays the target
character; in between, when the target is no space and no newline, it displays a
glyph of the alphabet, which the record then holds, and which differs from the
glyph held before only when none was held or the draw consulted is below
0.28. -/
theorem per_character_timing (rnd : ℕ → Draw) (cur target : JSString) (k i : ℕ)
    (hi : i < max cur.length target.length) :
    ∃ q r, (buildQueue rnd cur target k)[i]? = some q ∧
      q.from_ = charAt cur i ∧ q.to_ = charAt target i ∧
      q.start = 2 * i ∧ r ≤ 9 ∧ q.end_ = 2 * i + 10 + r ∧ q.start < q.end_ ∧
      (∀ dom s n, s.element.textContent = cur → s.draws = k →
        (framesAfter dom rnd s target n).queue.map QItem.static = buildQueue rnd cur target k ∧
          Chosen (framesAfter dom rnd s target n).queue) ∧
      (∀ dom s, ¬ "<br>".toList <:+: s.originalHTML →
        (update dom rnd s).element.textContent =
          (updatePieces rnd s.frame s.queue s.draws).flatten) ∧
      (∀ queue f k', queue.map QItem.static = buildQueue rnd cur target k → Chosen queue →
        (updateLoop rnd f queue k').queue.map QItem.static = buildQueue rnd cur target k ∧
        Chosen (updateLoop rnd f queue k').queue ∧
        (updateLoop rnd f queue k').output = (updatePieces rnd f queue k').flatten ∧
        ∃ c p c', (queue[i]?).map QItem.char = some c ∧
          (updatePieces rnd f queue k')[i]? = some p ∧
          ((updateLoop rnd f queue k').queue[i]?).map QItem.char = some c' ∧
          (f < q.start → p = q.from_ ∧ c' = c) ∧
          (q.end_ ≤ f → p = q.to_ ∧ c' = c) ∧
          (q.start ≤ f → f < q.end_ → q.to_ ≠ [' '] → q.to_ ≠ ['\n'] →
            Glyph p ∧ c' = p ∧
              (p ≠ c → c = [] ∨ (rnd (drawsBefore rnd f queue k' i)).val < 0.28))) := by
  have hr := floorMul_lt (rnd (k + i)) 10 (by norm_num)
  refine ⟨_, (rnd (k + i)).floorMul 10, buildQueue_get rnd cur target k i hi, rfl, rfl,
    Nat.mul_comm _ _, by omega, by rw [Nat.mul_comm], ?_, ?_, ?_, ?_⟩
  · show i * 2 < i * 2 + 10 + (rnd (k + i)).floorMul 10
    omega
  · intro dom s n h1 h2
    rw [← h1, ← h2]
    exact ⟨framesAfter_static dom rnd s target n, framesAfter_chosen dom rnd s target n⟩
  · intro dom s hbr
    rw [(update_plain dom rnd s hbr).1, updateLoop_output]
  · intro queue f k' hq hc
    refine ⟨by rw [updateLoop_static, hq], updateLoop_chosen rnd f queue k' hc,
      updateLoop_output rnd f queue k', ?_⟩
    obtain ⟨c, p, c', h1, h2, h3, h4, h5, h6, -⟩ :=
      position_display rnd cur target k i hi queue f k' hq hc
    refine ⟨c, p, c', h1, h2, h3, ?_, ?_, ?_⟩
    · intro hf
      exact h4 (by simpa [Nat.mul_comm] using hf)
    · intro hf
      exact h5 (by simpa [Nat.mul_comm] using hf)
    · intro hf1 hf2 hs hn
      exact h6 (by simpa [Nat.mul_comm] using hf1) (by simpa [Nat.mul_comm] using hf2) hs hn

/-- The witness of C10: position 1 of the queue from `"xy"` to `"HI"`, with
every draw 0, starts at frame 2 and ends at frame 12. -/
theorem per_character_timing_witness :
    ∃ q r, (buildQueue rndZero "xy".toList "HI".toList 0)[1]? = some q ∧
      q.from_ = ['y'] ∧ q.to_ = ['I'] ∧ q.start = 2 ∧ r ≤ 9 ∧ q.end_ = 12 + r := by
  obtain ⟨q, r, h1, h2, h3, h4, h5, h6, -⟩ :=
    per_character_timing rndZero "xy".toList "HI".toList 0 1 (by decide)
  exact ⟨q, r, h1, h2, h3, h4, h5, h6⟩

end TextScramble

namespace TextScramble

/-! ## reveal, scramble and the frame callbacks -/

/-- The method `updateText` writes the element and nothing else. -/
theorem updateText_element_only (dom : Dom) (s : State) (text : JSString) :
    updateText dom s text = { s with element := (updateText dom s text).element } := by
  simp only [updateText]
  split_ifs <;> rfl

/-- The element `updateText` leaves depends on the state only through the
element and the captured original text and markup. -/
theorem updateText_element_congr (dom : Dom) (s t : State) (text : JSString)
    (he : s.element = t.element) (hh : s.originalHTML = t.originalHTML)
    (ht : s.originalText = t.originalText) :
    (updateText dom s text).element = (updateText dom t text).element := by
  simp only [updateText, he, hh, ht]
  split_ifs <;> rfl

/-- The method `update()` either requests one frame or none; besides that it
writes the element, the queue and the draw counter. -/
theorem update_cases (dom : Dom) (rnd : ℕ → Draw) (s : State) :
    ∃ e q d, update dom rnd s = { s with element := e, queue := q, draws := d } ∨
      update dom rnd s = requestFrame { s with element := e, queue := q, draws := d } := by
  refine ⟨(update dom rnd s).element, (updateLoop rnd s.frame s.queue s.draws).queue,
    (updateLoop rnd s.frame s.queue s.draws).draws, ?_⟩
  simp only [update]
  rw [updateText_element_only]
  split_ifs
  · right
    rfl
  · left
    rfl

theorem update_isRevealed (dom : Dom) (rnd : ℕ → Draw) (s : State) :
    (update dom rnd s).isRevealed = s.isRevealed := by
  obtain ⟨e, q, d, h | h⟩ := update_cases dom rnd s
  · rw [h]
  · rw [h]
    rfl

theorem animateTo_isRevealed (dom : Dom) (rnd : ℕ → Draw) (s : State) (target : JSString) :
    (animateTo dom rnd s target).isRevealed = s.isRevealed := by
  simp only [animateTo, update_isRevealed]

theorem cancelAnimation_isRevealed (s : State) :
    (cancelAnimation s).isRevealed = s.isRevealed := by
  unfold cancelAnimation
  split
  · rfl
  · split_ifs <;> rfl

theorem reveal_isRevealed (dom : Dom) (rnd : ℕ → Draw) (s : State) :
    (reveal dom rnd s).isRevealed = true := by
  unfold reveal
  split_ifs with h
  · exact h
  · rw [animateTo_isRevealed, cancelAnimation_isRevealed]

theorem reveal_of_revealed (dom : Dom) (rnd : ℕ → Draw) (s : State) (h : s.isRevealed = true) :
    reveal dom rnd s = s := by
  simp [reveal, h]

/-- C11. The method `reveal()` is idempotent: after one call the controller is
revealed, and a second call returns the state of the first unchanged, so it
builds no queue, leaves the frame counter, cancels and requests no frame
callback and draws no random number; the same holds for every call on a
revealed controller. -/
theorem reveal_idempotent (dom : Dom) (rnd : ℕ → Draw) (s : State) :
    reveal dom rnd (reveal dom rnd s) = reveal dom rnd s ∧
      (reveal dom rnd s).isRevealed = true ∧
      (reveal dom rnd (reveal dom rnd s)).queue = (reveal dom rnd s).queue ∧
      (reveal dom rnd (reveal dom rnd s)).frame = (reveal dom rnd s).frame ∧
      (reveal dom rnd (reveal dom rnd s)).pending = (reveal dom rnd s).pending ∧
      (reveal dom rnd (reveal dom rnd s)).frameRequest = (reveal dom rnd s).frameRequest ∧
      (reveal dom rnd (reveal dom rnd s)).nextHandle = (reveal dom rnd s).nextHandle ∧
      (reveal dom rnd (reveal dom rnd s)).draws = (reveal dom rnd s).draws ∧
      (s.isRevealed = true → reveal dom rnd s = s) := by
  have h := reveal_of_revealed dom rnd (reveal dom rnd s) (reveal_isRevealed dom rnd s)
  refine ⟨h, reveal_isRevealed dom rnd s, ?_, ?_, ?_, ?_, ?_, ?_, reveal_of_revealed dom rnd s⟩ <;>
    rw [h]

/-- An instance of C11: `HELLO`, scrambled, revealed twice, and revealed once
more three frames later. -/
theorem reveal_idempotent_witness :
    reveal domPlain rndZero (reveal domPlain rndZero
        (initHeader domPlain rndZero (plainElement "HELLO".toList) 0 0)) =
      reveal domPlain rndZero (initHeader domPlain rndZero (plainElement "HELLO".toList) 0 0) ∧
    reveal domPlain rndZero (framesAfter domPlain rndZero
        { initHeader domPlain rndZero (plainElement "HELLO".toList) 0 0 with isRevealed := true }
        "HELLO".toList 3) =
      framesAfter domPlain rndZero
        { initHeader domPlain rndZero (plainElement "HELLO".toList) 0 0 with isRevealed := true }
        "HELLO".toList 3 := by
  refine ⟨(reveal_idempotent domPlain rndZero _).1, ?_⟩
  refine (reveal_idempotent domPlain rndZero _).2.2.2.2.2.2.2.2 ?_
  have htick : ∀ t : State, (tick domPlain rndZero t).isRevealed = t.isRevealed := by
    intro t
    unfold tick
    split
    · rfl
    · unfold fire
      split_ifs
      · rw [update_isRevealed]
      · rfl
  simp only [framesAfter, Function.iterate_succ_apply', Function.iterate_zero, id_eq, htick,
    animateTo_isRevealed]

/-- What `cancelAnimation()` does: nothing without a recorded handle, else the
recorded handle stops being pending and the record is cleared. -/
theorem cancelAnimation_cases (s : State) :
    (cancelAnimation s = s ∧ (s.frameRequest = none ∨ s.frameRequest = some 0)) ∨
      ∃ h, h ≠ 0 ∧ s.frameRequest = some h ∧
        cancelAnimation s = { s with pending := s.pending.erase h, frameRequest := none } := by
  unfold cancelAnimation
  split
  · next h => exact Or.inl ⟨rfl, Or.inl h⟩
  · next h hs =>
    by_cases h0 : h = 0
    · subst h0
      left
      simp [hs]
    · right
      exact ⟨h, h0, hs, by simp [h0]⟩

/-- With at most the recorded callback pending, `cancelAnimation()` leaves
none pending. -/
theorem cancelAnimation_pending (s : State) (h : OneFrame s) : (cancelAnimation s).pending = [] := by
  rcases cancelAnimation_cases s with ⟨hc, hf⟩ | ⟨h0, hne, hf, hc⟩
  · rw [hc]
    rcases h.1 with hp | ⟨h1, hne1, -, hf1⟩
    · exact hp
    · rcases hf with hf | hf <;> rw [hf] at hf1
      · cases hf1
      · cases hf1
        exact absurd rfl hne1
  · rw [hc]
    rcases h.1 with hp | ⟨h1, -, hp, hf1⟩
    · simp [hp]
    · rw [hf] at hf1
      cases hf1
      simp [hp]

/-- The method `setScrambled()` writes the element and the draw counter. -/
theorem setScrambled_eq (dom : Dom) (rnd : ℕ → Draw) (s : State) :
    setScrambled dom rnd s =
      { s with
        draws := (scrambleText rnd s.originalText s.draws).2
        element := (updateText dom s (scrambleText rnd s.originalText s.draws).1).element } := by
  simp only [setScrambled]
  rw [updateText_element_only]
  congr 1
  exact updateText_element_congr dom _ _ _ rfl rfl rfl

theorem cancelAnimation_static (s : State) :
    (cancelAnimation s).element = s.element ∧
      (cancelAnimation s).originalHTML = s.originalHTML ∧
      (cancelAnimation s).originalText = s.originalText ∧
      (cancelAnimation s).draws = s.draws ∧
      (cancelAnimation s).queue = s.queue ∧
      (cancelAnimation s).frame = s.frame ∧
      (cancelAnimation s).nextHandle = s.nextHandle := by
  rcases cancelAnimation_cases s with ⟨hc, -⟩ | ⟨h0, -, -, hc⟩ <;> rw [hc] <;>
    exact ⟨rfl, rfl, rfl, rfl, rfl, rfl, rfl⟩

/-- The scramble of a text puts a glyph of the alphabet wherever the text has
neither a space nor a newline. -/
theorem scrambleText_glyph (rnd : ℕ → Draw) (text : JSString) (k i : ℕ) (c : Char)
    (hc : charAt text i = [c]) (hws : ¬ (c = ' ' ∨ c = '\n')) :
    Glyph (charAt (scrambleText rnd text k).1 i) := by
  induction text generalizing k i with
  | nil => simp [charAt_nil] at hc
  | cons d ds ih =>
    simp only [scrambleText]
    cases i with
    | zero =>
      have hd : d = c := by simpa [charAt_cons_zero] using hc
      subst hd
      rw [if_neg hws]
      obtain ⟨g, hg, hr⟩ := randomChar_mem rnd k
      rw [hr]
      exact ⟨g, hg, rfl⟩
    | succ i =>
      rw [charAt_cons_succ] at hc
      split_ifs
      · exact ih k i hc
      · obtain ⟨g, -, hg⟩ := randomChar_mem rnd k
        rw [hg]
        exact ih (k + 1) i hc

theorem CHARS_no_whitespace : ' ' ∉ CHARS ∧ '\n' ∉ CHARS := by decide

/-- C12. The contract of `scramble()`: on a controller that is not revealed it
changes nothing; on a revealed one it clears the flag, cancels the recorded
frame callback (so that none is pending when at most that one was), requests no
frame, and hands `updateText` a string of the length of the original text that
keeps every space and newline of the original in place and has a glyph of the
49-character alphabet everywhere else; in an element without `<br>` that string
is the text displayed. The alphabet holds neither a space nor a newline. -/
theorem scramble_contract (dom : Dom) (rnd : ℕ → Draw) (s : State) :
    (s.isRevealed = false → scramble dom rnd s = s) ∧
    (s.isRevealed = true →
      (scramble dom rnd s).isRevealed = false ∧
      (∀ h, s.frameRequest = some h → h ≠ 0 →
        (scramble dom rnd s).pending = s.pending.erase h ∧
          (scramble dom rnd s).frameRequest = none) ∧
      (OneFrame s → (scramble dom rnd s).pending = []) ∧
      (scramble dom rnd s).nextHandle = s.nextHandle ∧
      (scramble dom rnd s).element =
        (updateText dom s (scrambleText rnd s.originalText s.draws).1).element ∧
      (¬ "<br>".toList <:+: s.originalHTML →
        (scramble dom rnd s).element.textContent =
          (scrambleText rnd s.originalText s.draws).1)) ∧
    (scrambleText rnd s.originalText s.draws).1.length = s.originalText.length ∧
    (∀ i c, charAt s.originalText i = [c] →
      ((c = ' ' ∨ c = '\n') → charAt (scrambleText rnd s.originalText s.draws).1 i = [c]) ∧
      (¬ (c = ' ' ∨ c = '\n') → Glyph (charAt (scrambleText rnd s.originalText s.draws).1 i))) ∧
    CHARS.length = 49 ∧ ' ' ∉ CHARS ∧ '\n' ∉ CHARS := by
  refine ⟨fun h => by simp [scramble, h], fun h => ?_, scrambleText_length rnd _ _, ?_,
    CHARS_length, CHARS_no_whitespace.1, CHARS_no_whitespace.2⟩
  · have hs : scramble dom rnd s =
        setScrambled dom rnd (cancelAnimation { s with isRevealed := false }) := by
      simp [scramble, h]
    have hst := cancelAnimation_static { s with isRevealed := false }
    have hel : (scramble dom rnd s).element =
        (updateText dom s (scrambleText rnd s.originalText s.draws).1).element := by
      rw [hs, setScrambled_eq, hst.2.2.1, hst.2.2.2.1]
      exact updateText_element_congr dom _ _ _ hst.1 hst.2.1 hst.2.2.1
    refine ⟨?_, ?_, ?_, ?_, hel, ?_⟩
    · rw [hs, setScrambled_eq]
      exact cancelAnimation_isRevealed _
    · intro h0 hf hne
      rw [hs, setScrambled_eq]
      simp [cancelAnimation, hf, hne]
    · intro hone
      rw [hs, setScrambled_eq]
      exact cancelAnimation_pending { s with isRevealed := false } hone
    · rw [hs, setScrambled_eq]
      exact hst.2.2.2.2.2.2
    · intro hbr
      rw [hel]
      simp only [updateText, if_neg hbr, Element.setTextContent]
  · intro i c hc
    refine ⟨fun hws => ?_, scrambleText_glyph rnd _ _ i c hc⟩
    rw [← hc]
    exact scrambleText_whitespace rnd _ _ i (by rw [hc]; rcases hws with h | h <;> simp [h])

/-- The witness of C12: `A B`, revealed, is scrambled to `A A` when every draw
is 0, with the space in place. -/
theorem scramble_contract_witness :
    (scramble domPlain rndZero
        { construct (plainElement "A B".toList) 0 0 with isRevealed := true }).element.textContent
      = (scrambleText rndZero "A B".toList 0).1 ∧
    charAt (scrambleText rndZero "A B".toList 0).1 1 = [' '] ∧
    Glyph (charAt (scrambleText rndZero "A B".toList 0).1 2) := by
  have h := scramble_contract domPlain rndZero
    { construct (plainElement "A B".toList) 0 0 with isRevealed := true }
  exact ⟨(h.2.1 rfl).2.2.2.2.2 (by decide), (h.2.2.2.1 1 ' ' rfl).1 (Or.inl rfl),
    (h.2.2.2.1 2 'B' rfl).2 (by decide)⟩

/-- C13, as the code has it. The constructor captures the original text and
markup and leaves the displayed text as it was, with no random number drawn;
it is `initHeader`, which constructs the controller and calls `setScrambled()`,
that leaves the element scrambled at once: no frame callback is requested, the
controller is not revealed, and `updateText` is handed the scramble of the
original text, which in an element without `<br>` is the text displayed. For
the original text `HELLO` the element then displays 5 glyphs of the alphabet,
none of them a space. -/
theorem header_starts_scrambled (dom : Dom) (rnd : ℕ → Draw) (element : Element)
    (nextHandle draws : ℕ) :
    ((construct element nextHandle draws).originalText = element.textContent ∧
      (construct element nextHandle draws).originalHTML = element.innerHTML ∧
      (construct element nextHandle draws).element.textContent = element.textContent ∧
      (construct element nextHandle draws).draws = draws) ∧
    ((initHeader dom rnd element nextHandle draws).originalText = element.textContent ∧
      (initHeader dom rnd element nextHandle draws).originalHTML = element.innerHTML ∧
      (initHeader dom rnd element nextHandle draws).pending = [] ∧
      (initHeader dom rnd element nextHandle draws).frameRequest = none ∧
      (initHeader dom rnd element nextHandle draws).nextHandle = nextHandle ∧
      (initHeader dom rnd element nextHandle draws).isRevealed = false ∧
      (initHeader dom rnd element nextHandle draws).element =
        (updateText dom (construct element nextHandle draws)
          (scrambleText rnd element.textContent draws).1).element) ∧
    (¬ "<br>".toList <:+: element.innerHTML →
      (initHeader dom rnd element nextHandle draws).element.textContent =
        (scrambleText rnd element.textContent draws).1) ∧
    ((scrambleText rnd element.textContent draws).1.length = element.textContent.length ∧
      ∀ i c, charAt element.textContent i = [c] →
        ((c = ' ' ∨ c = '\n') → charAt (scrambleText rnd element.textContent draws).1 i = [c]) ∧
        (¬ (c = ' ' ∨ c = '\n') →
          Glyph (charAt (scrambleText rnd element.textContent draws).1 i))) ∧
    ((initHeader dom rnd (plainElement "HELLO".toList) nextHandle
        draws).element.textContent.length = 5 ∧
      ∀ i, i < 5 → ∃ g, g ∈ CHARS ∧ g ≠ ' ' ∧
        charAt (initHeader dom rnd (plainElement "HELLO".toList) nextHandle
          draws).element.textContent i = [g]) := by
  have hinit : ∀ el : Element, initHeader dom rnd el nextHandle draws =
      { construct el nextHandle draws with
        draws := (scrambleText rnd el.textContent draws).2
        element := (updateText dom (construct el nextHandle draws)
          (scrambleText rnd el.textContent draws).1).element } := fun el => by
    rw [initHeader, setScrambled_eq]
    rfl
  have hplain : ∀ el : Element, ¬ "<br>".toList <:+: el.innerHTML →
      (initHeader dom rnd el nextHandle draws).element.textContent =
        (scrambleText rnd el.textContent draws).1 := fun el hbr => by
    rw [initHeader_plain dom rnd el nextHandle draws hbr]
    rfl
  have hglyph : ∀ (text : JSString) (i : ℕ) (c : Char), charAt text i = [c] →
      ((c = ' ' ∨ c = '\n') → charAt (scrambleText rnd text draws).1 i = [c]) ∧
      (¬ (c = ' ' ∨ c = '\n') → Glyph (charAt (scrambleText rnd text draws).1 i)) := by
    intro text i c hc
    refine ⟨fun hws => ?_, scrambleText_glyph rnd _ _ i c hc⟩
    rw [← hc]
    exact scrambleText_whitespace rnd _ _ i (by rw [hc]; rcases hws with h | h <;> simp [h])
  refine ⟨⟨rfl, rfl, rfl, rfl⟩, ?_, hplain element, ⟨scrambleText_length rnd _ _, hglyph _⟩, ?_, ?_⟩
  · rw [hinit element]
    exact ⟨rfl, rfl, rfl, rfl, rfl, rfl, rfl⟩
  · rw [hplain _ (by decide), scrambleText_length]
    rfl
  · intro i hi
    rw [hplain _ (by decide)]
    have hc : ∃ c, charAt "HELLO".toList i = [c] ∧ ¬ (c = ' ' ∨ c = '\n') := by
      interval_cases i
      · exact ⟨'H', rfl, by decide⟩
      · exact ⟨'E', rfl, by decide⟩
      · exact ⟨'L', rfl, by decide⟩
      · exact ⟨'L', rfl, by decide⟩
      · exact ⟨'O', rfl, by decide⟩
    obtain ⟨c, hc, hws⟩ := hc
    obtain ⟨g, hg, heq⟩ := (hglyph "HELLO".toList i c hc).2 hws
    refine ⟨g, hg, ?_, heq⟩
    rintro rfl
    exact CHARS_no_whitespace.1 hg

/-- The witness of C13: a heading `A B` without `<br>`, whose scramble is
displayed after `initHeader`. -/
theorem header_starts_scrambled_witness :
    (initHeader domPlain rndZero (plainElement "A B".toList) 0 0).element.textContent =
      (scrambleText rndZero "A B".toList 0).1 :=
  (header_starts_scrambled domPlain rndZero (plainElement "A B".toList) 0 0).2.2.1 (by decide)

/-- C13 fails as stated: right after the constructor an element over `hello`
still displays `hello`, whose first unit is no glyph of the alphabet, and an
element over `HELLO` still displays `HELLO` with no random number drawn. -/
theorem construct_counterexample :
    (construct (plainElement "hello".toList) 0 0).element.textContent = "hello".toList ∧
      ¬ Glyph (charAt (construct (plainElement "hello".toList) 0 0).element.textContent 0) ∧
      (construct (plainElement "HELLO".toList) 0 0).element.textContent = "HELLO".toList ∧
      (construct (plainElement "HELLO".toList) 0 0).draws = 0 := by
  refine ⟨rfl, ?_, rfl, rfl⟩
  rintro ⟨g, hg, heq⟩
  have h : g = 'h' := by
    have : ['h'] = [g] := heq
    simpa using this.symm
  subst h
  exact absurd hg (by decide)

/-- With nothing pending, `update()` leaves nothing pending or exactly the
callback it requests, whose handle is new. -/
theorem update_pending (dom : Dom) (rnd : ℕ → Draw) (s : State) (hp : s.pending = []) :
    ((update dom rnd s).pending = [] ∧ (update dom rnd s).nextHandle = s.nextHandle) ∨
      ((update dom rnd s).pending = [s.nextHandle + 1] ∧
        (update dom rnd s).frameRequest = some (s.nextHandle + 1) ∧
        (update dom rnd s).nextHandle = s.nextHandle + 1) := by
  obtain ⟨e, q, d, h | h⟩ := update_cases dom rnd s
  · left
    rw [h]
    exact ⟨hp, rfl⟩
  · right
    rw [h]
    simp [requestFrame, hp]

theorem update_oneFrame (dom : Dom) (rnd : ℕ → Draw) (s : State) (hp : s.pending = []) :
    OneFrame (update dom rnd s) := by
  rcases update_pending dom rnd s hp with ⟨h1, -⟩ | ⟨h1, h2, h3⟩
  · exact ⟨Or.inl h1, fun h hh => by rw [h1] at hh; cases hh⟩
  · refine ⟨Or.inr ⟨s.nextHandle + 1, Nat.succ_ne_zero _, h1, h2⟩, fun h hh => ?_⟩
    rw [h1] at hh
    rw [h3, List.mem_singleton.mp hh]

theorem reveal_oneFrame (dom : Dom) (rnd : ℕ → Draw) (s : State) (h : OneFrame s) :
    OneFrame (reveal dom rnd s) := by
  unfold reveal
  split_ifs
  · exact h
  · exact update_oneFrame dom rnd _ (cancelAnimation_pending { s with isRevealed := true } h)

theorem setScrambled_oneFrame (dom : Dom) (rnd : ℕ → Draw) (s : State) (h : OneFrame s) :
    OneFrame (setScrambled dom rnd s) := by
  rw [setScrambled_eq]
  exact h

theorem scramble_pending (dom : Dom) (rnd : ℕ → Draw) (s : State) (h : OneFrame s)
    (hr : s.isRevealed = true) : (scramble dom rnd s).pending = [] := by
  have hs : scramble dom rnd s =
      setScrambled dom rnd (cancelAnimation { s with isRevealed := false }) := by
    simp [scramble, hr]
  rw [hs, setScrambled_eq]
  exact cancelAnimation_pending { s with isRevealed := false } h

theorem scramble_oneFrame (dom : Dom) (rnd : ℕ → Draw) (s : State) (h : OneFrame s) :
    OneFrame (scramble dom rnd s) := by
  cases hr : s.isRevealed with
  | false =>
    have : scramble dom rnd s = s := by simp [scramble, hr]
    rw [this]
    exact h
  | true =>
    have hp := scramble_pending dom rnd s h hr
    exact ⟨Or.inl hp, fun x hx => by rw [hp] at hx; cases hx⟩

theorem fire_oneFrame (dom : Dom) (rnd : ℕ → Draw) (h : ℕ) (s : State) (hs : OneFrame s) :
    OneFrame (fire dom rnd h s) := by
  unfold fire
  split_ifs with hm
  · refine update_oneFrame dom rnd _ ?_
    rcases hs.1 with hp | ⟨h', -, hp, -⟩
    · rw [hp] at hm
      cases hm
    · rw [hp] at hm
      show s.pending.erase h = []
      rw [hp, List.mem_singleton.mp hm]
      simp
  · exact hs

theorem tick_oneFrame (dom : Dom) (rnd : ℕ → Draw) (s : State) (hs : OneFrame s) :
    OneFrame (tick dom rnd s) := by
  unfold tick
  split
  · exact hs
  · exact fire_oneFrame dom rnd _ s hs

theorem act_oneFrame (dom : Dom) (rnd : ℕ → Draw) (s : State) (a : Action) (hs : OneFrame s) :
    OneFrame (act dom rnd s a) := by
  cases a with
  | reveal => exact reveal_oneFrame dom rnd s hs
  | scramble => exact scramble_oneFrame dom rnd s hs
  | setScrambled => exact setScrambled_oneFrame dom rnd s hs
  | fire h => exact fire_oneFrame dom rnd h s hs
  | tick => exact tick_oneFrame dom rnd s hs

theorem runActions_oneFrame (dom : Dom) (rnd : ℕ → Draw) (as : List Action) (s : State)
    (hs : OneFrame s) : OneFrame (runActions dom rnd s as) := by
  induction as generalizing s with
  | nil => exact hs
  | cons a as ih => exact ih (act dom rnd s a) (act_oneFrame dom rnd s a hs)

theorem construct_oneFrame (element : Element) (nextHandle draws : ℕ) :
    OneFrame (construct element nextHandle draws) :=
  ⟨Or.inl rfl, fun h hh => by cases hh⟩

/-- With nothing pending no frame callback runs: the state stays as it is. -/
theorem idle_of_no_pending (dom : Dom) (rnd : ℕ → Draw) (s : State) (hp : s.pending = []) :
    (∀ h, fire dom rnd h s = s) ∧ ∀ n, (tick dom rnd)^[n] s = s := by
  have htick : tick dom rnd s = s := by simp [tick, hp]
  refine ⟨fun h => by simp [fire, hp], fun n => ?_⟩
  induction n with
  | zero => rfl
  | succ n ih => rw [Function.iterate_succ_apply', ih, htick]

theorem animateTo_pending (dom : Dom) (rnd : ℕ → Draw) (s : State) (target : JSString)
    (hp : s.pending = []) :
    (animateTo dom rnd s target).pending = [] ∨
      (animateTo dom rnd s target).pending = [s.nextHandle + 1] := by
  rcases update_pending dom rnd
    { s with
      queue := buildQueue rnd s.element.textContent target s.draws
      draws := s.draws + max s.element.textContent.length target.length
      frame := 0 } hp with ⟨h1, -⟩ | ⟨h1, -, -⟩
  · exact Or.inl h1
  · exact Or.inr h1

/-- After `reveal()` on a controller that was not revealed, no callback that
was pending before is pending any more. -/
theorem reveal_supersedes (dom : Dom) (rnd : ℕ → Draw) (s : State) (hs : OneFrame s)
    (hr : s.isRevealed = false) (h : ℕ) (hh : h ∈ s.pending) :
    h ∉ (reveal dom rnd s).pending := by
  have hle : h ≤ s.nextHandle := hs.2 h hh
  have hrev : reveal dom rnd s =
      animateTo dom rnd (cancelAnimation { s with isRevealed := true }) s.originalText := by
    simp [reveal, hr]
  have hc := cancelAnimation_pending { s with isRevealed := true } hs
  have hn := (cancelAnimation_static { s with isRevealed := true }).2.2.2.2.2.2
  have hn' : (cancelAnimation { s with isRevealed := true }).nextHandle = s.nextHandle := hn
  rw [hrev]
  rcases animateTo_pending dom rnd _ s.originalText hc with h1 | h1
  · rw [h1]
    exact List.not_mem_nil h
  · rw [h1, List.mem_singleton, hn']
    omega

/-- C15. No racing animations: in every state reached from the constructor
through `reveal()`, `scramble()`, `setScrambled()` and frame callbacks run by
the host, at most one frame callback is pending, and it is the one recorded in
`frameRequest`. A `reveal()` that starts an animation leaves no callback
pending that was pending before, and after a `scramble()` nothing is pending:
no frame callback runs, and the scrambled state stays as it is for every number
of animation frames. -/
theorem no_racing (dom : Dom) (rnd : ℕ → Draw) (element : Element) (nextHandle draws : ℕ)
    (as : List Action) :
    (runActions dom rnd (construct element nextHandle draws) as).pending.length ≤ 1 ∧
    OneFrame (runActions dom rnd (construct element nextHandle draws) as) ∧
    ((runActions dom rnd (construct element nextHandle draws) as).isRevealed = false →
      ∀ h ∈ (runActions dom rnd (construct element nextHandle draws) as).pending,
        h ∉ (reveal dom rnd
          (runActions dom rnd (construct element nextHandle draws) as)).pending) ∧
    ((runActions dom rnd (construct element nextHandle draws) as).isRevealed = true →
      (scramble dom rnd
        (runActions dom rnd (construct element nextHandle draws) as)).pending = [] ∧
      (∀ h, fire dom rnd h
          (scramble dom rnd (runActions dom rnd (construct element nextHandle draws) as)) =
        scramble dom rnd (runActions dom rnd (construct element nextHandle draws) as)) ∧
      ∀ n, (tick dom rnd)^[n]
          (scramble dom rnd (runActions dom rnd (construct element nextHandle draws) as)) =
        scramble dom rnd (runActions dom rnd (construct element nextHandle draws) as)) := by
  have hone := runActions_oneFrame dom rnd as _ (construct_oneFrame element nextHandle draws)
  refine ⟨?_, hone, fun hr h hh => reveal_supersedes dom rnd _ hone hr h hh, fun hr => ?_⟩
  · rcases hone.1 with hp | ⟨h, -, hp, -⟩ <;> rw [hp] <;> simp
  · have hp := scramble_pending dom rnd _ hone hr
    exact ⟨hp, idle_of_no_pending dom rnd _ hp⟩

/-- The witness of C15: `HELLO` is set scrambled and revealed, one frame
runs, and `scramble()` then leaves nothing pending. -/
theorem no_racing_witness :
    (runActions domPlain rndZero (construct (plainElement "HELLO".toList) 0 0)
        [.setScrambled, .reveal, .tick]).isRevealed = true ∧
      (scramble domPlain rndZero
        (runActions domPlain rndZero (construct (plainElement "HELLO".toList) 0 0)
          [.setScrambled, .reveal, .tick])).pending = [] := by
  have hr : (runActions domPlain rndZero (construct (plainElement "HELLO".toList) 0 0)
      [.setScrambled, .reveal, .tick]).isRevealed = true := by
    simp only [runActions, List.foldl_cons, List.foldl_nil, act]
    have htick : ∀ t : State, (tick domPlain rndZero t).isRevealed = t.isRevealed := by
      intro t
      unfold tick
      split
      · rfl
      · unfold fire
        split_ifs
        · rw [update_isRevealed]
        · rfl
    rw [htick, reveal_isRevealed]
  exact ⟨hr, ((no_racing domPlain rndZero (plainElement "HELLO".toList) 0 0
    [.setScrambled, .reveal, .tick]).2.2.2 hr).1⟩

/-! ## Line breaks -/

theorem splitBr_cons (c : Char) (cs acc : JSString) (hc : c ≠ '<') :
    splitBr (c :: cs) acc = splitBr cs (acc ++ [c]) := by
  rw [splitBr]
  intro rest h1 _
  exact absurd h1 hc

/-- A text without `<` is one piece. -/
theorem splitBr_plain (text acc : JSString) (h : '<' ∉ text) :
    splitBr text acc = [acc ++ text] := by
  induction text generalizing acc with
  | nil => simp [splitBr]
  | cons c cs ih =>
    have hc : c ≠ '<' := fun hc => h (by simp [hc])
    rw [splitBr_cons c cs acc hc, ih _ (fun hm => h (List.mem_cons_of_mem _ hm))]
    simp

/-- Markup with one `<br>` between two runs of plain text splits in the two
runs. -/
theorem splitBr_single (a b acc : JSString) (ha : '<' ∉ a) (hb : '<' ∉ b) :
    splitBr (a ++ "<br>".toList ++ b) acc = [acc ++ a, b] := by
  induction a generalizing acc with
  | nil =>
    show splitBr ('<' :: 'b' :: 'r' :: '>' :: b) acc = _
    rw [splitBr, splitBr_plain b [] hb]
    simp
  | cons c cs ih =>
    have hc : c ≠ '<' := fun hc => ha (by simp [hc])
    show splitBr (c :: (cs ++ "<br>".toList ++ b)) acc = _
    rw [splitBr_cons c _ acc hc, ih _ (fun hm => ha (List.mem_cons_of_mem _ hm))]
    simp

/-- Where the code keeps the line break: when the original text has no
newline, the `<br>` is put back after as many units as the markup has before
its `<br>`, and no unit of the rendered text is dropped. -/
theorem updateText_br_fallback (dom : Dom) (s : State) (a b text : JSString)
    (hh : s.originalHTML = a ++ "<br>".toList ++ b) (ha : '<' ∉ a) (hb : '<' ∉ b)
    (hn : '\n' ∉ s.originalText) :
    (updateText dom s text).element.innerHTML =
      text.take a.length ++ "<br>".toList ++ text.drop a.length := by
  have hbr : "<br>".toList <:+: s.originalHTML := by
    rw [hh]
    exact ⟨a, b, rfl⟩
  have hidx : indexOf s.originalText '\n' = -1 := by simp [indexOf, hn]
  have hsplit : splitBr s.originalHTML [] = [a, b] := by
    rw [hh, splitBr_single a b [] ha hb]
    simp
  have hbr' : ['<', 'b', 'r', '>'] <:+: s.originalHTML := hbr
  simp [updateText, hbr', hidx, hsplit, Element.setInnerHTML]

/-- Where the code loses the line break: when the original text has a
newline, the `<br>` is put where the first newline is, whatever the place of the
`<br>` in the markup, and the unit of the rendered text at that index is
dropped. -/
theorem updateText_br_newline (dom : Dom) (s : State) (text : JSString)
    (hbr : "<br>".toList <:+: s.originalHTML) (hn : '\n' ∈ s.originalText) :
    (updateText dom s text).element.innerHTML =
      text.take (s.originalText.indexOf '\n') ++ "<br>".toList ++
        text.drop (s.originalText.indexOf '\n' + 1) := by
  have hidx : indexOf s.originalText '\n' = (s.originalText.indexOf '\n' : ℕ) := by
    simp [indexOf, hn]
  have hne : ((s.originalText.indexOf '\n' : ℕ) : ℤ) ≠ -1 := by omega
  simp only [updateText, if_pos hbr, hidx, if_pos hne, Int.toNat_ofNat, Element.setInnerHTML]

/-- C14 at a failing input. The markup `\nHi<br>there` has one `<br>` between
two runs of plain text, with 3 units before it. Rendering the original text
`\nHithere` through `updateText` gives the markup `<br>Hithere`: the `<br>` sits
at position 0, not 3, and the two lines `\nHi` and `there` of the original are
not reproduced. -/
theorem line_break_misplaced :
    splitBr brokenHeading.innerHTML [] = ["\nHi".toList, "there".toList] ∧
      (updateText domPlain (construct brokenHeading 0 0)
        (construct brokenHeading 0 0).originalText).element.innerHTML = "<br>Hithere".toList ∧
      (updateText domPlain (construct brokenHeading 0 0)
        (construct brokenHeading 0 0).originalText).element.innerHTML ≠
          brokenHeading.innerHTML := by
  have h := updateText_br_newline domPlain (construct brokenHeading 0 0)
    (construct brokenHeading 0 0).originalText (by decide) (by decide)
  have hi : (construct brokenHeading 0 0).originalText.indexOf '\n' = 0 := by decide
  rw [hi] at h
  refine ⟨by decide, ?_, ?_⟩
  · rw [h]
    decide
  · rw [h]
    decide

end TextScramble

namespace ASCIIBackground

/-! ## The renderer and the dead zone -/

theorem smoothstep_bounds (e0 e1 x : ℚ) :
    0 ≤ smoothstep e0 e1 x ∧ smoothstep e0 e1 x ≤ 1 := by
  have h0 : 0 ≤ clamp ((x - e0) / (e1 - e0)) 0 1 := le_min (le_max_right _ _) zero_le_one
  have h1 : clamp ((x - e0) / (e1 - e0)) 0 1 ≤ 1 := min_le_right _ _
  simp only [smoothstep]
  constructor
  · have : 0 ≤ 3 - 2 * clamp ((x - e0) / (e1 - e0)) 0 1 := by linarith
    positivity
  · nlinarith [mul_nonneg h0 h0, mul_nonneg (sub_nonneg.mpr h1) (sub_nonneg.mpr h1),
      mul_nonneg (mul_nonneg (sub_nonneg.mpr h1) (sub_nonneg.mpr h1)) h0]

/-- One gated layer keeps the reveal mask in `[0, 1]`. -/
theorem layer_bounds (c : Prop) [Decidable c] (r a b : ℚ) (hr : 0 ≤ r ∧ r ≤ 1)
    (ha : 0 ≤ a ∧ a ≤ 1) (hb : 0 ≤ b ∧ b ≤ 1) :
    0 ≤ (if c then max r (a * b) else r) ∧ (if c then max r (a * b) else r) ≤ 1 := by
  split_ifs
  · exact ⟨le_max_of_le_left hr.1, max_le hr.2 (mul_le_one₀ ha.2 hb.1 hb.2)⟩
  · exact hr

/-- The reveal mask lies in `[0, 1]`, whatever the noise. -/
theorem revealMask_bounds (sh : Shader) (u : Uniforms) (vUv : Vec2) :
    0 ≤ revealMask sh u vUv ∧ revealMask sh u vUv ≤ 1 := by
  simp only [revealMask]
  refine layer_bounds _ _ _ _ ?_ (smoothstep_bounds _ _ _) (smoothstep_bounds _ _ _)
  refine layer_bounds _ _ _ _ ?_ (smoothstep_bounds _ _ _) (smoothstep_bounds _ _ _)
  refine layer_bounds _ _ _ _ ?_ (smoothstep_bounds _ _ _) (smoothstep_bounds _ _ _)
  have h := layer_bounds
    (sh.snoise ((distortedPos sh u vUv).1 * 0.0006) ((distortedPos sh u vUv).2 * 0.0006) 0.0 * 0.5
      + 0.5 > mix 0.75 0.3 (smoothstep 0.0 0.4 u.uIntensity)) 0.0
    (smoothstep (mix 0.75 0.3 (smoothstep 0.0 0.4 u.uIntensity))
      (mix 0.75 0.3 (smoothstep 0.0 0.4 u.uIntensity) + 0.15)
      (sh.snoise ((distortedPos sh u vUv).1 * 0.0006) ((distortedPos sh u vUv).2 * 0.0006) 0.0
        * 0.5 + 0.5)) 1
    (by norm_num) (smoothstep_bounds _ _ _) (by norm_num)
  simpa using h

/-- The early exit of `main()`. -/
theorem main_early_exit (sh : Shader) (u : Uniforms) (vUv : Vec2) (h : u.uIntensity < 0.001) :
    main sh u vUv = background := by
  simp only [main, if_pos h]

/-- Below an intensity of 0.01 every pixel gets the background colour: past the
early exit the visibility `revealMask * uIntensity` is below 0.01. -/
theorem main_dim (sh : Shader) (u : Uniforms) (vUv : Vec2) (h : u.uIntensity < 0.01) :
    main sh u vUv = background := by
  by_cases h1 : u.uIntensity < 0.001
  · exact main_early_exit sh u vUv h1
  · have hr := revealMask_bounds sh u vUv
    have hu : 0 ≤ u.uIntensity := by
      have : (0.001 : ℚ) ≤ u.uIntensity := not_lt.mp h1
      linarith
    have hv : revealMask sh u vUv * u.uIntensity < 0.01 :=
      lt_of_le_of_lt (mul_le_of_le_one_left hu hr.2) h
    simp only [main, if_neg h1, if_pos hv]
    split_ifs <;> rfl

theorem background_eq : background = (0, 0, 0, 1) := by
  norm_num [background]

/-- C16, as the code has it. When the intensity uniform is below 0.001 the
fragment program writes the background colour `(0, 0, 0, 1)` for every pixel,
resolution, time, pointer position and cell size, whatever the noise function
and the built-ins return. After a frame step the controller's intensity is
below 0.001 exactly when it is 0, so the early exit is taken exactly when the
intensity is 0, and the output is uniform background then. It is uniform
background for every intensity below 0.01 as well, where the visibility test
rejects every pixel. -/
theorem renderer_early_exit (sh : Shader) (s : State) :
    (∀ u vUv, u.uIntensity < 0.001 → main sh u vUv = (0, 0, 0, 1)) ∧
    (∀ sh' u vUv, u.uIntensity < 0.001 → main sh u vUv = main sh' u vUv) ∧
    ((animate s).intensity < 0.001 ↔ (animate s).intensity = 0) ∧
    (s.intensity = 0 →
      ∀ resolution mouse hover cell vUv, render sh s resolution mouse hover cell vUv = (0, 0, 0, 1)) ∧
    (s.intensity < 0.01 →
      ∀ resolution mouse hover cell vUv,
        render sh s resolution mouse hover cell vUv = (0, 0, 0, 1)) := by
  refine ⟨fun u vUv h => ?_, fun sh' u vUv h => ?_, ?_, fun h res mouse hover cell vUv => ?_,
    fun h res mouse hover cell vUv => ?_⟩
  · rw [main_early_exit sh u vUv h, background_eq]
  · rw [main_early_exit sh u vUv h, main_early_exit sh' u vUv h]
  · constructor
    · intro h
      rcases animate_zero_or_ge s with h0 | h0
      · exact h0
      · exact absurd h (not_lt.mpr h0)
    · intro h
      rw [h]
      norm_num
  · rw [render, main_early_exit sh _ vUv (by show s.intensity < 0.001; rw [h]; norm_num),
      background_eq]
  · rw [render, main_dim sh _ vUv h, background_eq]

/-- The state after the first sample `(0, 0)`, a qualifying move to `(3, 4)`
and one frame: the intensity is `0.0015`. -/
theorem dim_state :
    (run sqrtFloor (init 0) [.mousemove 0 0, .mousemove 3 4, .frame]).intensity = 0.0015 := by
  show (animate (run sqrtFloor (init 0) [.mousemove 0 0, .mousemove 3 4])).intensity = 0.0015
  rw [armed_state]
  norm_num [animate]

/-- The witness of C16: the constructor state renders as background, and so
does the state of intensity `0.0015`. -/
theorem renderer_early_exit_witness :
    (∀ sh resolution mouse hover cell vUv,
      render sh (init 0) resolution mouse hover cell vUv = (0, 0, 0, 1)) ∧
    (∀ sh resolution mouse hover cell vUv,
      render sh (run sqrtFloor (init 0) [.mousemove 0 0, .mousemove 3 4, .frame])
        resolution mouse hover cell vUv = (0, 0, 0, 1)) :=
  ⟨fun sh => (renderer_early_exit sh (init 0)).2.2.2.1 rfl,
    fun sh => (renderer_early_exit sh _).2.2.2.2 (by rw [dim_state]; norm_num)⟩

/-- C16 fails as stated: after a qualifying move and one frame the controller's
intensity is `0.0015`, which is not 0 and not below 0.001, and the renderer's
output is still the background colour for every pixel and every noise. -/
theorem renderer_counterexample :
    (run sqrtFloor (init 0) [.mousemove 0 0, .mousemove 3 4, .frame]).intensity ≠ 0 ∧
      ¬ (run sqrtFloor (init 0) [.mousemove 0 0, .mousemove 3 4, .frame]).intensity < 0.001 ∧
      ∀ sh resolution mouse hover cell vUv,
        render sh (run sqrtFloor (init 0) [.mousemove 0 0, .mousemove 3 4, .frame])
          resolution mouse hover cell vUv = (0, 0, 0, 1) := by
  refine ⟨by rw [dim_state]; norm_num, by rw [dim_state]; norm_num,
    fun sh res mouse hover cell vUv => ?_⟩
  rw [render, main_dim sh _ vUv (by
    show (run sqrtFloor (init 0) [.mousemove 0 0, .mousemove 3 4, .frame]).intensity < 0.01
    rw [dim_state]; norm_num), background_eq]

/-- From intensity 0 and a target below 1/150 a frame leaves the intensity
at 0. -/
theorem dead_step (s : State) (hc : s.intensity = 0) (ht : s.targetIntensity < 1 / 150) :
    (animate s).intensity = 0 := by
  rw [animate_intensity, hc]
  have hlt : 0 + (s.targetIntensity - 0) *
      (if s.targetIntensity > 0 then (0.15 : ℚ) else 0.04) < 0.001 := by
    split_ifs with h
    · norm_num at ht ⊢
      linarith
    · have h' : s.targetIntensity ≤ 0 := not_lt.mp h
      norm_num
      linarith
  rw [if_pos hlt]

/-- Only a frame writes the intensity. -/
theorem step_intensity (sqrt : ℚ → ℚ) (s : State) (e : Event) (he : e ≠ .frame) :
    (step sqrt s e).intensity = s.intensity := by
  cases e with
  | mousemove x y => exact onMouseMove_intensity sqrt s x y
  | mouseleave => rfl
  | scroll y => exact onScroll_intensity s y
  | touchmove ts => exact onTouchMove_intensity sqrt s ts
  | touchend => rfl
  | elapse ms => exact elapse_intensity s ms
  | frame => exact absurd rfl he

/-- While the target stays below 1/150 the intensity stays at 0, whatever
happens. -/
theorem dead_run (sqrt : ℚ → ℚ) (es : List Event) (s : State) (hc : s.intensity = 0)
    (ht : ∀ p, p <+: es → (run sqrt s p).targetIntensity < 1 / 150) :
    (run sqrt s es).intensity = 0 := by
  induction es generalizing s with
  | nil => exact hc
  | cons e es ih =>
    have h0 : s.targetIntensity < 1 / 150 := ht [] (List.nil_prefix)
    have hstep : (step sqrt s e).intensity = 0 := by
      by_cases he : e = .frame
      · subst he
        exact dead_step s hc h0
      · rw [step_intensity sqrt s e he, hc]
    refine ih (step sqrt s e) hstep (fun p hp => ?_)
    exact ht (e :: p) ((List.cons_prefix_cons).mpr ⟨rfl, hp⟩)

/-- Frames and the passing of time keep the target or zero it. -/
theorem quiet_target (sqrt : ℚ → ℚ) (es : List Event) (s : State)
    (hes : ∀ e ∈ es, e = .frame ∨ ∃ ms, e = .elapse ms) :
    (run sqrt s es).targetIntensity = s.targetIntensity ∨ (run sqrt s es).targetIntensity = 0 := by
  induction es generalizing s with
  | nil => exact Or.inl rfl
  | cons e es ih =>
    have hstep : (step sqrt s e).targetIntensity = s.targetIntensity ∨
        (step sqrt s e).targetIntensity = 0 := by
      rcases hes e (List.mem_cons_self _ _) with rfl | ⟨ms, rfl⟩
      · exact Or.inl rfl
      · exact elapse_targetIntensity s ms
    rcases ih (step sqrt s e) (fun e' he' => hes e' (List.mem_cons_of_mem _ he')) with h | h
    · rcases hstep with h' | h'
      · exact Or.inl (h.trans h')
      · exact Or.inr (h.trans h')
    · exact Or.inr h

/-- A state at rest, with a target below 1/150, renders nothing during frames
and the passing of time. -/
theorem dead_quiet (sqrt : ℚ → ℚ) (s : State) (hc : s.intensity = 0)
    (ht : s.targetIntensity < 1 / 150) (es : List Event)
    (hes : ∀ e ∈ es, e = .frame ∨ ∃ ms, e = .elapse ms) :
    (run sqrt s es).intensity = 0 := by
  refine dead_run sqrt es s hc (fun p hp => ?_)
  have hp' : ∀ e ∈ p, e = .frame ∨ ∃ ms, e = .elapse ms :=
    fun e he => hes e (hp.subset he)
  rcases quiet_target sqrt p s hp' with h | h <;> rw [h]
  · exact ht
  · norm_num

theorem natSqrt_nine : natSqrt 9 = 3 := by decide

theorem sqrtFloor_nine : sqrtFloor 9 = 3 := by
  simp [sqrtFloor, natSqrt_nine]

/-- C17. Dead zone at zero: with `intensity` at 0 and `targetIntensity` below
1/150 a frame leaves the intensity at exactly 0, and so does every sequence of
events during which the target stays below 1/150. A single qualifying pointer
move (mouse or touch) of computed distance `d` with `2 < d < 10/3` from rest
gains `d * 0.002 < 1/150`, so during the frames and the idle time that follow
the intensity stays 0 and every pixel gets the background colour. -/
theorem dead_zone (sqrt : ℚ → ℚ) (s : State) (hc : s.intensity = 0) :
    (s.targetIntensity < 1 / 150 → (animate s).intensity = 0) ∧
    (s.targetIntensity < 1 / 150 → ∀ n, (frames n s).intensity = 0) ∧
    (∀ es, (∀ p, p <+: es → (run sqrt s p).targetIntensity < 1 / 150) →
      (run sqrt s es).intensity = 0) ∧
    (s.targetIntensity = 0 → s.lastMouseX ≠ -1 → ∀ x y,
      2 < moved sqrt s x y → moved sqrt s x y < 10 / 3 →
      (onMouseMove sqrt s x y).targetIntensity = moved sqrt s x y * 0.002 ∧
      (∀ others, (onTouchMove sqrt s ((x, y) :: others)).targetIntensity =
        moved sqrt s x y * 0.002) ∧
      moved sqrt s x y * 0.002 < 1 / 150 ∧
      ∀ es, (∀ e ∈ es, e = .frame ∨ ∃ ms, e = .elapse ms) →
        (run sqrt (onMouseMove sqrt s x y) es).intensity = 0 ∧
        (∀ others, (run sqrt (onTouchMove sqrt s ((x, y) :: others)) es).intensity = 0) ∧
        ∀ sh resolution mouse hover cell vUv,
          render sh (run sqrt (onMouseMove sqrt s x y) es) resolution mouse hover cell vUv =
            (0, 0, 0, 1) ∧
          ∀ others,
            render sh (run sqrt (onTouchMove sqrt s ((x, y) :: others)) es) resolution mouse
              hover cell vUv = (0, 0, 0, 1)) := by
  refine ⟨dead_step s hc, fun ht n => ?_, fun es ht => dead_run sqrt es s hc ht,
    fun ht hx x y h2 h3 => ?_⟩
  · induction n with
    | zero => exact hc
    | succ n ih =>
      rw [frames_succ]
      exact dead_step _ ih (by rw [frames_targetIntensity]; exact ht)
  · have hgain : min (s.targetIntensity + min (moved sqrt s x y * 0.002) 0.03) maxIntensity =
        moved sqrt s x y * 0.002 := by
      rw [ht, zero_add, maxIntensity_eq,
        min_eq_left (by norm_num at h3 ⊢; linarith : moved sqrt s x y * 0.002 ≤ (0.03 : ℚ)),
        min_eq_left (by norm_num at h3 ⊢; linarith : moved sqrt s x y * 0.002 ≤ (1 : ℚ))]
    have hsmall : moved sqrt s x y * 0.002 < 1 / 150 := by
      norm_num at h3 ⊢
      linarith
    have hm : (onMouseMove sqrt s x y).targetIntensity = moved sqrt s x y * 0.002 := by
      simp only [onMouseMove, if_neg hx, if_pos (show moved sqrt s x y > 2 from h2)]
      exact hgain
    have htc : ∀ others, (onTouchMove sqrt s ((x, y) :: others)).targetIntensity =
        moved sqrt s x y * 0.002 := by
      intro others
      have hx' : ¬ s.lastMouseX = -1 := hx
      simp only [onTouchMove, ne_eq, hx', not_false_eq_true, if_true,
        if_pos (show moved sqrt s x y > 2 from h2)]
      exact hgain
    refine ⟨hm, htc, hsmall, fun es hes => ?_⟩
    have h1 : (run sqrt (onMouseMove sqrt s x y) es).intensity = 0 :=
      dead_quiet sqrt _ (by rw [onMouseMove_intensity, hc]) (by rw [hm]; exact hsmall) es hes
    have h2' : ∀ others, (run sqrt (onTouchMove sqrt s ((x, y) :: others)) es).intensity = 0 :=
      fun others => dead_quiet sqrt _ (by rw [onTouchMove_intensity, hc])
        (by rw [htc]; exact hsmall) es hes
    refine ⟨h1, h2', fun sh res mouse hover cell vUv => ⟨?_, fun others => ?_⟩⟩
    · rw [render, main_early_exit sh _ vUv (by
        show (run sqrt (onMouseMove sqrt s x y) es).intensity < 0.001
        rw [h1]; norm_num), background_eq]
    · rw [render, main_early_exit sh _ vUv (by
        show (run sqrt (onTouchMove sqrt s ((x, y) :: others)) es).intensity < 0.001
        rw [h2']; norm_num), background_eq]

/-- The witness of C17: from the sample `(0, 0)` at rest, a move of 3 pixels,
two frames, 200 ms and one more frame leave the intensity at 0. -/
theorem dead_zone_witness :
    (onMouseMove sqrtFloor (onMouseMove sqrtFloor (init 0) 0 0) 3 0).targetIntensity = 0.006 ∧
      (run sqrtFloor (onMouseMove sqrtFloor (onMouseMove sqrtFloor (init 0) 0 0) 3 0)
        [.frame, .frame, .elapse 200, .frame]).intensity = 0 := by
  have hm : moved sqrtFloor (onMouseMove sqrtFloor (init 0) 0 0) 3 0 = 3 := by
    norm_num [moved, onMouseMove, init, sqrtFloor_nine]
  have h := (dead_zone sqrtFloor (onMouseMove sqrtFloor (init 0) 0 0)
    (by norm_num [onMouseMove, init])).2.2.2 (by norm_num [onMouseMove, init])
    (by norm_num [onMouseMove, init]) 3 0 (by rw [hm]; norm_num) (by rw [hm]; norm_num)
  refine ⟨by rw [h.1, hm]; norm_num, (h.2.2.2 _ ?_).1⟩
  intro e he
  simp only [List.mem_cons, List.mem_singleton, List.not_mem_nil, or_false] at he
  rcases he with rfl | rfl | rfl | rfl
  · exact Or.inl rfl
  · exact Or.inl rfl
  · exact Or.inr ⟨200, rfl⟩
  · exact Or.inl rfl

end ASCIIBackground
